import Mathlib

/-!
Verification development for a parser-construction toolkit (LL(1) and SLR(1))
for context-free grammars.  The definitions below are a shallow embedding of
the Python source `parser.py`: each `def` mirrors one function of the source,
keeping its name and control structure.  Python sets are modelled as
insertion-ordered duplicate-free lists, dictionaries as association lists with
a fixed key spine, and `while`-until-no-change loops as fuel-bounded
iteration (the fuel is chosen large enough; stabilisation within the fuel is
proved below).  A returned `none` models a run of the source that does not
return normally: either an infinite loop or an uncaught exception, as
documented at each site.
-/

/-- A production `(A, α)`: left-hand side string, right-hand side as the list
of its characters (the source stores the right-hand side as a string and
always indexes single characters). -/
abbrev Regla := String × List Char

/-- FIRST/FOLLOW maps: association list from non-terminal to its set of
symbols (single-character strings, plus the epsilon marker "e"). -/
abbrev Mapa := List (String × List String)

/-- An LR(0) item `((A, α), dot)` as in the source. -/
abbrev Item := (String × List Char) × Nat

/-- Python `set.add`: append the element unless already present. -/
def agregarElem (s : List String) (x : String) : List String :=
  if x ∈ s then s else s ++ [x]

/-- Python `set.update`: add every element of `xs`. -/
def unionElems (s : List String) (xs : List String) : List String :=
  xs.foldl agregarElem s

/-- Dictionary access with default `[]` (all accesses in the source are to
existing keys; the default only matters for ill-formed inputs). -/
def lookupD (m : Mapa) (k : String) : List String :=
  match m with
  | [] => []
  | (a, v) :: t => if a = k then v else lookupD t k

/-- Update the (first) entry of key `k` by `f`. -/
def actualizaV (m : Mapa) (k : String) (f : List String → List String) : Mapa :=
  match m with
  | [] => []
  | (a, v) :: t => if a = k then (a, f v) :: t else (a, v) :: actualizaV t k f

/-- Fuel-bounded version of `while hubo_cambios:` for a step that can fail to
return (`none` propagates a modelled non-termination or exception of the
step).  The loop exits as soon as one pass changes nothing, exactly like the
source's change flag: every mutation of the source only grows a set, so
"no flag was raised" coincides with "the pass returned its input". -/
def mientrasCambie {α : Type} [DecidableEq α] (paso : α → Option α) : Nat → α → Option α
  | 0, a => some a
  | f + 1, a =>
    match paso a with
    | none => none
    | some b => if b = a then some b else mientrasCambie paso f b

/-- Fuel-bounded `while hubo_cambios:` for a total step. -/
def mientrasCambieT {α : Type} [DecidableEq α] (paso : α → α) : Nat → α → α
  | 0, a => a
  | f + 1, a =>
    let b := paso a
    if b = a then b else mientrasCambieT paso f b

/-- Classification of one right-hand-side character by
`identificar_simbolos` (source lines 64-68): uppercase characters are
non-terminals, anything else except 'e' is a terminal. -/
def clasificaChar (acc : List String × List String) (c : Char) : List String × List String :=
  if c.isUpper then (agregarElem acc.1 c.toString, acc.2)
  else if c ≠ 'e' then (acc.1, agregarElem acc.2 c.toString)
  else acc

/-- Handling of one production by `identificar_simbolos`: its left-hand side
joins the non-terminals, then every character of the right-hand side is
classified. -/
def clasificaRegla (acc : List String × List String) (r : Regla) :
    List String × List String :=
  r.2.foldl clasificaChar (agregarElem acc.1 r.1, acc.2)

/-- Source `identificar_simbolos` (lines 54-70): derive the non-terminal and
terminal alphabets from the productions; '$' is added to the terminals at
the end. -/
def identificar_simbolos (reglas : List Regla) : List String × List String :=
  let par := reglas.foldl clasificaRegla (([], []) : List String × List String)
  (par.1, agregarElem par.2 "$")

/-- Inner walk of `calcular_conjuntos_primeros` (source lines 93-108): scan a
right-hand side left to right, adding terminals and the epsilon-free FIRST of
non-terminals to `FIRST(a)`, stopping at a terminal or a non-nullable
non-terminal.  Returns the updated map and the `todos_tienen_epsilon` flag.
When a character is neither a terminal nor a non-terminal the source's
`while` loop never advances `i` and spins forever; `none` models that run. -/
def primerosWalk (NT T : List String) (a : String) : List Char → Mapa → Option (Mapa × Bool)
  | [], m => some (m, true)
  | c :: resto, m =>
    let s := c.toString
    if s ∈ T then
      some (actualizaV m a (fun v => agregarElem v s), false)
    else if s ∈ NT then
      let m1 := actualizaV m a (fun v => unionElems v ((lookupD m s).filter (fun x => x ≠ "e")))
      if "e" ∈ lookupD m1 s then primerosWalk NT T a resto m1
      else some (m1, false)
    else none

/-- Handling of one production inside the FIRST pass (source lines 86-113). -/
def primerosRegla (NT T : List String) (r : Regla) (m : Mapa) : Option Mapa :=
  match r.2 with
  | [] => some (actualizaV m r.1 (fun v => agregarElem v "e"))
  | _ =>
    match primerosWalk NT T r.1 r.2 m with
    | none => none
    | some (m1, todos) =>
      some (if todos then actualizaV m1 r.1 (fun v => agregarElem v "e") else m1)

/-- One pass of the FIRST fixpoint loop over all productions. -/
def primerosPaso (NT T : List String) (reglas : List Regla) (m : Mapa) : Option Mapa :=
  reglas.foldlM (fun acc r => primerosRegla NT T r acc) m

/-- Fuel for the FIRST loop: the total size of the map is bounded by
`|NT| * (|T| + 1)` (each value is a duplicate-free subset of `T ∪ {"e"}`)
and every productive pass grows it. -/
def combustiblePrimeros (NT T : List String) : Nat :=
  NT.length * (T.length + 1) + 2

/-- Source `calcular_conjuntos_primeros` (lines 73-114): FIRST sets of all
non-terminals, iterated to a fixpoint.  `none` models the runs on which the
source never terminates (a right-hand-side character classified neither
terminal nor non-terminal, which only the character 'e' can be). -/
def calcular_conjuntos_primeros (NT T : List String) (reglas : List Regla) : Option Mapa :=
  mientrasCambie (primerosPaso NT T reglas) (combustiblePrimeros NT T)
    (NT.map (fun nt => (nt, [])))

/-- Source `agregar_follow` (lines 131-139): pour `FOLLOW(noTerminal)` into
`FOLLOW(simbolo)` unless `simbolo` was already visited in this pass. -/
def agregar_follow (m : Mapa) (vis : List String) (simbolo noTerminal : String) :
    Mapa × List String :=
  if simbolo ∈ vis then (m, vis)
  else
    (actualizaV m simbolo (fun v => unionElems v (lookupD m noTerminal)),
     vis ++ [simbolo])

/-- Positions of one production inside the FOLLOW pass (source lines
145-166), processed as a structural walk over the right-hand side: `c` is the
symbol at the current position and the head of `resto` is the symbol after
it, when there is one.  Note the source consults only that single next
symbol, never the rest of the suffix. -/
def siguientesRec (NT T : List String) (primeros : Mapa) (a : String) :
    List Char → Mapa × List String → Mapa × List String
  | [], st => st
  | c :: resto, st =>
    let s := c.toString
    let st1 :=
      if s ∈ NT then
        match resto with
        | [] => if a ≠ s then agregar_follow st.1 st.2 s a else st
        | c2 :: _ =>
          let s2 := c2.toString
          if s2 ∈ T then
            (actualizaV st.1 s (fun v => agregarElem v s2), st.2)
          else if s2 ∈ NT then
            let m1 := actualizaV st.1 s
              (fun v => unionElems v ((lookupD primeros s2).filter (fun x => x ≠ "e")))
            if "e" ∈ lookupD primeros s2 ∧ a ≠ s then agregar_follow m1 st.2 s a
            else (m1, st.2)
          else st
      else st
    siguientesRec NT T primeros a resto st1

/-- One pass of the FOLLOW fixpoint loop: the visited marker is reset at the
start of each pass (source line 143). -/
def siguientesPaso (NT T : List String) (primeros : Mapa) (reglas : List Regla)
    (m : Mapa) : Mapa :=
  (reglas.foldl (fun st r => siguientesRec NT T primeros r.1 r.2 st) (m, [])).1

/-- Initial FOLLOW map: empty sets, then `$` seeded into the start symbol's
entry when present (source lines 127-129). -/
def inicialSiguientes (NT : List String) (s0 : String) : Mapa :=
  let m := NT.map (fun nt => (nt, ([] : List String)))
  if s0 ∈ NT then actualizaV m s0 (fun v => agregarElem v "$") else m

/-- Fuel for the FOLLOW loop: every element ever added comes from
`{"$"} ∪ T ∪ (elements of the FIRST map)`. -/
def combustibleSiguientes (NT T : List String) (primeros : Mapa) : Nat :=
  NT.length * (1 + T.length + (primeros.map (fun p => p.2.length)).sum) + 2

/-- Source `calcular_conjuntos_siguientes` (lines 117-167): FOLLOW sets of
all non-terminals, iterated to a fixpoint, with the per-pass visited marker
of the source. -/
def calcular_conjuntos_siguientes (NT T : List String) (primeros : Mapa)
    (reglas : List Regla) (s0 : String) : Mapa :=
  mientrasCambieT (siguientesPaso NT T primeros reglas)
    (combustibleSiguientes NT T primeros) (inicialSiguientes NT s0)

/-- Walk of `construir_tabla_ll1` computing `primeros_derivacion` for one
right-hand side (source lines 184-200), reading the already computed FIRST
map.  Returns the collected set and the `todos_tienen_epsilon` flag; `none`
models the source's infinite loop on an unclassified character. -/
def primerosDerivWalk (NT T : List String) (primeros : Mapa) :
    List Char → List String → Option (List String × Bool)
  | [], acc => some (acc, true)
  | c :: resto, acc =>
    let s := c.toString
    if s ∈ T then some (agregarElem acc s, false)
    else if s ∈ NT then
      let acc1 := unionElems acc ((lookupD primeros s).filter (fun x => x ≠ "e"))
      if "e" ∈ lookupD primeros s then primerosDerivWalk NT T primeros resto acc1
      else some (acc1, false)
    else none

/-- FIRST of a right-hand side as computed by the LL(1) table builder,
including the final epsilon insertion of source line 199-200. -/
def primerosDerivacion (NT T : List String) (primeros : Mapa) (deriv : List Char) :
    Option (List String) :=
  match primerosDerivWalk NT T primeros deriv [] with
  | none => none
  | some (acc, todos) => some (if todos then agregarElem acc "e" else acc)

/-- The LL(1) table, as a total function on cells; cells never assigned hold
`none` (the source uses a dictionary over `NT × T` initialised to `None`;
the total-function model agrees with it on every access the source makes). -/
abbrev TablaLL := String → String → Option (List Char)

/-- Empty LL(1) table. -/
def tablaVacia : TablaLL := fun _ _ => none

/-- Cell-assignment loop shared by source lines 201-205 and 207-211: for each
terminal in `ts`, raise the conflict flag when the cell is already populated
(whatever it holds), then store the production. -/
def asignarCeldas (a : String) (deriv : List Char) (ts : List String)
    (st : TablaLL × Bool) : TablaLL × Bool :=
  ts.foldl (fun p t =>
    let conf := p.2 || (p.1 a t).isSome
    (fun x y => if x = a ∧ y = t then some deriv else p.1 x y, conf)) st

/-- Source `construir_tabla_ll1` (lines 170-212): populate the predictive
table production by production; first the terminals of `FIRST(α) \ {e}`,
then, when `e ∈ FIRST(α)`, the terminals of `FOLLOW(A)`.  Returns the table
and the conflict flag. -/
def construir_tabla_ll1 (NT T : List String) (primeros siguientes : Mapa)
    (reglas : List Regla) : Option (TablaLL × Bool) :=
  reglas.foldlM (fun st r =>
    match primerosDerivacion NT T primeros r.2 with
    | none => none
    | some F =>
      let st1 := asignarCeldas r.1 r.2 (F.filter (fun x => x ≠ "e")) st
      some (if "e" ∈ F then asignarCeldas r.1 r.2 (lookupD siguientes r.1) st1 else st1))
    (tablaVacia, false)

/-- Initial stack of the LL(1) recognizer (source line 226): the Python list
`[simbolo_inicial, '$']`, whose top — the source always reads `pila[-1]` —
is its last element. -/
def pilaInicial (s0 : String) : List String := [s0, "$"]

/-- Source `analizar_ll1` main loop (lines 229-264), with explicit fuel: the
table-driven loop of the source need not terminate in general, and `none`
models a run longer than the fuel.  The stack top is the last list element
(`pila[-1]`), popping is `dropLast`, pushing appends.  Branch order is the
source's: the terminal branch is tested before the `tope = "$"` accept
branch. -/
def analizar_ll1Loop (T : List String) (tabla : TablaLL) (cadena : List Char) :
    Nat → List String → Nat → Option Bool
  | 0, _, _ => none
  | f + 1, pila, i =>
    match pila.getLast? with
    | none => some false
    | some tope =>
      if tope ∈ T then
        if cadena.length ≤ i then some false
        else if (cadena.get? i).map Char.toString = some tope then
          analizar_ll1Loop T tabla cadena f pila.dropLast (i + 1)
        else some false
      else if tope = "$" then
        if i = cadena.length then some true else some false
      else
        if cadena.length ≤ i then some false
        else
          match cadena.get? i with
          | none => some false
          | some ce =>
            if ce.toString ∈ T then
              match tabla tope ce.toString with
              | none => some false
              | some produccion =>
                analizar_ll1Loop T tabla cadena f
                  (pila.dropLast ++ (produccion.map Char.toString).reverse) i
            else some false

/-- Source `analizar_ll1` (lines 215-264): run the predictive parser on an
end-marker-terminated input. -/
def analizar_ll1 (T : List String) (tabla : TablaLL) (s0 : String)
    (cadena : List Char) : Option Bool :=
  analizar_ll1Loop T tabla cadena (2 * cadena.length + 100) (pilaInicial s0) 0

/-- Python `set.add` for items. -/
def agregarItem (s : List Item) (x : Item) : List Item :=
  if x ∈ s then s else s ++ [x]

/-- Python `set.add` for characters. -/
def agregarChar (s : List Char) (x : Char) : List Char :=
  if x ∈ s then s else s ++ [x]

/-- One pass of the closure loop of `cerrar_item` (source lines 278-293):
for every item whose dot precedes an uppercase character, add the
dot-at-start items of that non-terminal's productions. -/
def cerrarPaso (reglas : List Regla) (items : List Item) : List Item :=
  items.foldl (fun acc it =>
    if h : it.2 < it.1.2.length then
      let c := it.1.2.get ⟨it.2, h⟩
      if c.isUpper then
        reglas.foldl (fun acc2 r =>
          if r.1 = c.toString then agregarItem acc2 ((r.1, r.2), 0) else acc2) acc
      else acc
    else acc) items

/-- Source `cerrar_item` (lines 267-294) on its intended argument, a single
item: the closure of `{item}`. -/
def cerrar_item (reglas : List Regla) (item : Item) : List Item :=
  mientrasCambieT (cerrarPaso reglas) (reglas.length + 2) [item]

/-- Set equality of two item lists, the equality Python uses on frozensets
(for the `in estados` and `.index` tests of the source). -/
def mismoEstadoB (a b : List Item) : Bool :=
  a.all (fun x => decide (x ∈ b)) && b.all (fun x => decide (x ∈ a))

/-- Source `ir_a` (lines 296-313).  It first advances the dot of every item
whose dot precedes `simbolo`.  When the result is empty it returns the empty
set (line 313).  When it is non-empty, line 312 passes the whole item-set to
`cerrar_item`, which wraps its argument in a singleton set (line 276) and
then destructures each element as `((no_terminal, derivacion), posicion)`
(line 282); destructuring a frozenset of items that way raises `ValueError`
(one item, or three or more) or `TypeError` (exactly two, via
`len(derivacion)` on an integer).  So every call with a non-empty result
raises an uncaught exception; `none` models that raise. -/
def ir_a (estado : List Item) (simbolo : Char) : Option (List Item) :=
  let nuevo := estado.foldl (fun acc it =>
    if h : it.2 < it.1.2.length then
      if it.1.2.get ⟨it.2, h⟩ = simbolo then agregarItem acc (it.1, it.2 + 1) else acc
    else acc) ([] : List Item)
  if nuevo = [] then some [] else none

/-- Symbols appearing immediately after a dot in a state (source lines
333-336 and 389-392). -/
def simbolosDe (estado : List Item) : List Char :=
  estado.foldl (fun acc it =>
    if h : it.2 < it.1.2.length then agregarChar acc (it.1.2.get ⟨it.2, h⟩)
    else acc) []

/-- The apostrophe character used by the source to name the augmented
non-terminal (`simbolo_inicial + "'"`). -/
def comilla : Char := Char.ofNat 39

/-- The augmented start item `((S', S), 0)` of source lines 327 and 378:
the derivation is the start-symbol string itself. -/
def itemInicial (s0 : String) : Item := ((s0 ++ comilla.toString, s0.data), 0)

/-- Fuel for the canonical-collection worklist: comfortably larger than the
number of distinct item sets. -/
def combustibleEstados (reglas : List Regla) (s0 : String) : Nat :=
  2 ^ ((reglas.map (fun r => r.2.length + 1)).sum + s0.length + 1) + 1

/-- Worklist enumeration of the canonical collection shared by source lines
330-341 and 386-397: process state `i`, compute `ir_a` on each symbol after
a dot, append unseen non-empty results.  A `none` from `ir_a` (its uncaught
exception) aborts the whole run. -/
def enumerarEstados (fuel : Nat) (estados : List (List Item)) (i : Nat) :
    Option (List (List Item)) :=
  match fuel with
  | 0 => some estados
  | f + 1 =>
    if h : i < estados.length then
      let estado := estados.get ⟨i, h⟩
      match (simbolosDe estado).foldlM (fun acc c =>
          match ir_a estado c with
          | none => none
          | some sig =>
            if sig.isEmpty then some acc
            else if acc.any (fun e => mismoEstadoB sig e) then some acc
            else some (acc ++ [sig])) estados with
      | none => none
      | some estados2 => enumerarEstados f estados2 (i + 1)
    else some estados

/-- Reduce items of a state (source lines 345-351): completed items except
the augmented production. -/
def reduccionesDe (estado : List Item) (aug : String) : List (String × List Char) :=
  estado.foldl (fun acc it =>
    if it.2 = it.1.2.length then
      if it.1.1 = aug then acc else acc ++ [it.1]
    else acc) []

/-- Shift symbols of a state (source lines 352-355): terminals after a dot. -/
def desplazamientosDe (estado : List Item) (T : List String) : List Char :=
  estado.foldl (fun acc it =>
    if h : it.2 < it.1.2.length then
      let c := it.1.2.get ⟨it.2, h⟩
      if c.toString ∈ T then agregarChar acc c else acc
    else acc) []

/-- Conflict analysis of one state in `es_slr1` (source lines 344-363): a
shift-reduce conflict when a reduce item's FOLLOW meets the shift symbols,
and a reduce-reduce conflict whenever more than one reduce item exists —
regardless of their FOLLOW sets. -/
def conflictoEstado (T : List String) (siguientes : Mapa) (aug : String)
    (estado : List Item) : Bool :=
  let reducciones := reduccionesDe estado aug
  let desplazamientos := desplazamientosDe estado T
  let sr := reducciones.any (fun red =>
    (lookupD siguientes red.1).any (fun t =>
      (desplazamientos.map Char.toString).contains t))
  sr || decide (reducciones.length > 1)

/-- Source `es_slr1` (lines 316-364).  It first enumerates the canonical
collection; since the enumeration's very first `ir_a` call raises (the start
state always has the start symbol after a dot), the whole function raises an
uncaught exception on every grammar — `none` models that.  The conflict
analysis that would follow is embedded faithfully above. -/
def es_slr1 (reglas : List Regla) (T : List String) (siguientes : Mapa)
    (s0 : String) : Option Bool :=
  let inicial := cerrar_item reglas (itemInicial s0)
  match enumerarEstados (combustibleEstados reglas s0) [inicial] 0 with
  | none => none
  | some estados =>
    some (!(estados.any (fun e => conflictoEstado T siguientes (s0 ++ comilla.toString) e)))

/-- ACTION-table actions of the SLR(1) builder (source uses the tuples
`('desplazar', j)`, `('reducir', r)`, `('aceptar', None)`). -/
inductive Accion
  | desplazar : Nat → Accion
  | reducir : Nat → Accion
  | aceptar : Accion
deriving DecidableEq

/-- ACTION table as a total function on `(state, terminal)` cells. -/
abbrev TablaAccion := Nat → String → Option Accion

/-- GOTO table as a total function on `(state, non-terminal)` cells. -/
abbrev TablaGoto := Nat → String → Option Nat

/-- Python `estados.index(s)`: position of the first state set-equal to `s`. -/
def indiceEstado (estados : List (List Item)) (s : List Item) : Nat :=
  estados.findIdx (fun e => mismoEstadoB s e)

/-- Filling of the ACTION/GOTO tables for the items of one state (source
lines 404-424).  Shift and accept assignments overwrite unconditionally;
the reduce branch skips the assignment and only reports when the cell is
already populated.  The `ir_a` calls of the shift/goto branches raise, so a
state with any symbol after a dot propagates `none`. -/
def llenarItem (reglasAmp : List Item) (NT T : List String) (siguientes : Mapa)
    (aug : String) (estados : List (List Item)) (idx : Nat)
    (tablas : TablaAccion × TablaGoto) (it : Item) : Option (TablaAccion × TablaGoto) :=
  if h : it.2 < it.1.2.length then
    let c := it.1.2.get ⟨it.2, h⟩
    if c.toString ∈ T then
      match ir_a estados[idx]! c with
      | none => none
      | some sig =>
        let j := indiceEstado estados sig
        some (fun x y => if x = idx ∧ y = c.toString then some (Accion.desplazar j)
               else tablas.1 x y, tablas.2)
    else if c.toString ∈ NT then
      match ir_a estados[idx]! c with
      | none => none
      | some sig =>
        let j := indiceEstado estados sig
        some (tablas.1, fun x y => if x = idx ∧ y = c.toString then some j else tablas.2 x y)
    else some tablas
  else if it.1.1 = aug then
    some (fun x y => if x = idx ∧ y = "$" then some Accion.aceptar else tablas.1 x y, tablas.2)
  else
    let r := reglasAmp.findIdx (fun ra => decide (ra = ((it.1.1, it.1.2), 0)))
    some ((lookupD siguientes it.1.1).foldl (fun acc t =>
      if (acc.1 idx t).isSome then acc
      else (fun x y => if x = idx ∧ y = t then some (Accion.reducir r) else acc.1 x y, acc.2))
      tablas)

/-- Source `construir_tabla_slr1` (lines 367-426).  Builds the augmented rule
list, enumerates the canonical collection (which raises as in `es_slr1`),
then fills ACTION/GOTO.  `none` models the uncaught exception. -/
def construir_tabla_slr1 (reglas : List Regla) (NT T : List String)
    (siguientes : Mapa) (s0 : String) :
    Option (TablaAccion × TablaGoto × List (List Item) × List Item) :=
  let aug := s0 ++ comilla.toString
  let reglasAmp : List Item :=
    itemInicial s0 :: reglas.map (fun r => ((r.1, r.2), 0))
  let inicial := cerrar_item reglas (itemInicial s0)
  match enumerarEstados (combustibleEstados reglas s0) [inicial] 0 with
  | none => none
  | some estados =>
    match (estados.enum.foldlM (fun tablas par =>
        par.2.foldlM (fun t it =>
          llenarItem reglasAmp NT T siguientes aug estados par.1 t it) tablas)
        ((fun _ _ => none, fun _ _ => none) : TablaAccion × TablaGoto)) with
    | none => none
    | some tablas => some (tablas.1, tablas.2, estados, reglasAmp)

/-- A line of the grammar file, as its list of characters. -/
abbrev Linea := List Char

/-- Python `str.strip`: drop leading and trailing whitespace. -/
def recortar (l : Linea) : Linea :=
  ((l.dropWhile Char.isWhitespace).reverse.dropWhile Char.isWhitespace).reverse

/-- Python `str.split("->")`: split at every occurrence of the arrow,
keeping empty pieces. -/
def separaFlecha : Linea → Linea → List Linea
  | [], acc => [acc.reverse]
  | '-' :: '>' :: resto, acc => acc.reverse :: separaFlecha resto []
  | c :: resto, acc => separaFlecha resto (c :: acc)

/-- Python `str.split(" ")`: split at every single space, keeping empty
pieces. -/
def separaEspacios : Linea → Linea → List Linea
  | [], acc => [acc.reverse]
  | ' ' :: resto, acc => acc.reverse :: separaEspacios resto []
  | c :: resto, acc => separaEspacios resto (c :: acc)

/-- Numeric value of a digit string. -/
def valorDigitos (l : Linea) : Nat :=
  l.foldl (fun n c => n * 10 + (c.toNat - 48)) 0

/-- Python `int(...)` on a stripped string: optional sign followed by
digits; `none` models the `ValueError`. -/
def enteroDe (l : Linea) : Option Int :=
  match l with
  | [] => none
  | '-' :: ds => if ds ≠ [] ∧ ds.all Char.isDigit then some (-(valorDigitos ds : Int)) else none
  | '+' :: ds => if ds ≠ [] ∧ ds.all Char.isDigit then some ((valorDigitos ds : Int)) else none
  | ds => if ds.all Char.isDigit then some ((valorDigitos ds : Int)) else none

/-- Result of loading a grammar file: either the parsed data (productions,
input strings, start symbol) or process termination with an exit status. -/
inductive Carga
  | ok : List Regla → List Linea → Option String → Carga
  | exitCode : Nat → Carga
deriving DecidableEq

/-- Python `archivo.readline()` for line `i`: the empty string past the end
of the file. -/
def lineaN (archivo : List Linea) (i : Nat) : Linea :=
  (archivo.get? i).getD []

/-- Rule-reading loop of `leer_gramatica` (source lines 25-40): one line per
iteration, split on the arrow, both parts stripped; the first rule's
left-hand side becomes the start symbol; then every whitespace-separated
token of the right-hand part is appended as its own production, the token
`e` giving an empty right-hand side.  `none` models the
`Formato incorrecto` path, which calls the bare `exit()`. -/
def leerReglasLoop (archivo : List Linea) :
    Nat → Nat → List Regla → Option String → Option (List Regla × Option String)
  | _, 0, acc, s0 => some (acc, s0)
  | i, resta + 1, acc, s0 =>
    let regla := recortar (lineaN archivo (i + 1))
    let partes := (separaFlecha regla []).map recortar
    match partes with
    | [p0, p1] =>
      let s0n := if i = 0 then some (String.mk p0) else s0
      let derivaciones := separaEspacios p1 []
      let acc2 := derivaciones.foldl
        (fun a d => a ++ [((String.mk p0 : String), if d = ['e'] then [] else d)]) acc
      leerReglasLoop archivo (i + 1) resta acc2 s0n
    | _ => none

/-- Input-string reading loop of `leer_gramatica` (source lines 41-45):
strip, append the end marker, stop at the sentinel `e`. -/
def leerCadenasLoop : List Linea → List Linea → List Linea
  | [], acc => acc
  | l :: resto, acc =>
    let linea := recortar l ++ ['$']
    if linea = ['e', '$'] then acc
    else leerCadenasLoop resto (acc ++ [linea])

/-- Source `leer_gramatica` (lines 9-51) as a pure function of the file
content (`none` models a missing file).  The source catches
`FileNotFoundError` and `ValueError` and terminates through the bare
`exit()` builtin, which raises `SystemExit(None)`: the process exit status
on each of those paths is 0. -/
def leer_gramatica (archivo : Option (List Linea)) : Carga :=
  match archivo with
  | none => Carga.exitCode 0
  | some lineas =>
    match enteroDe (recortar (lineaN lineas 0)) with
    | none => Carga.exitCode 0
    | some n =>
      match leerReglasLoop lineas 0 n.toNat [] none with
      | none => Carga.exitCode 0
      | some (reglas, s0) =>
        Carga.ok reglas (leerCadenasLoop (lineas.drop (1 + n.toNat)) []) s0

/-- FIRST of a symbol string according to the walk of spec sections 4.2 and
4.4.  This definition (and the two below) follow the specification's words,
not the source; they exist only to compare the source's FOLLOW engine
against the specification's section 4.3 rules. -/
def primerosCadenaEspec (NT T : List String) (primeros : Mapa) : List Char → List String
  | [] => ["e"]
  | c :: resto =>
    let s := c.toString
    if s ∈ T then [s]
    else if s ∈ NT then
      let f := (lookupD primeros s).filter (fun x => x ≠ "e")
      if "e" ∈ lookupD primeros s then unionElems f (primerosCadenaEspec NT T primeros resto)
      else f
    else []

/-- One production's contribution to the FOLLOW rules of spec section 4.3:
for every position holding a non-terminal `Xᵢ`, with `β` the entire
remaining suffix, add `FIRST(β) \ {ε}` to `FOLLOW(Xᵢ)`, and when `β` is
empty or nullable also add `FOLLOW(A)`. -/
def siguientesEspecRec (NT T : List String) (primeros : Mapa) (a : String) :
    List Char → Mapa → Mapa
  | [], m => m
  | c :: resto, m =>
    let s := c.toString
    let m1 :=
      if s ∈ NT then
        let fb := primerosCadenaEspec NT T primeros resto
        let m2 := actualizaV m s (fun v => unionElems v (fb.filter (fun x => x ≠ "e")))
        if resto = [] ∨ "e" ∈ fb then actualizaV m2 s (fun v => unionElems v (lookupD m2 a))
        else m2
      else m
    siguientesEspecRec NT T primeros a resto m1

/-- FOLLOW sets as prescribed by spec section 4.3, iterated to a fixpoint
from the same seeding (`$` in the start symbol's set). -/
def siguientesSegunEspec (NT T : List String) (primeros : Mapa)
    (reglas : List Regla) (s0 : String) : Mapa :=
  mientrasCambieT
    (fun m => reglas.foldl (fun acc r => siguientesEspecRec NT T primeros r.1 r.2 acc) m)
    (combustibleSiguientes NT T primeros) (inicialSiguientes NT s0)

/-- Cells targeted by the LL(1) table builder, in processing order: for each
production `A → α`, one entry `(A, a)` per terminal `a ∈ FIRST(α) \ {e}`
and, when `e ∈ FIRST(α)`, one per element of `FOLLOW(A)`.  The builder's
conflict flag is characterised below as: some cell is targeted twice. -/
def celdasAsignadas (NT T : List String) (primeros siguientes : Mapa) :
    List Regla → Option (List (String × String))
  | [] => some []
  | r :: resto =>
    match primerosDerivacion NT T primeros r.2 with
    | none => none
    | some F =>
      let estas := (F.filter (fun x => x ≠ "e")).map (fun t => (r.1, t)) ++
        (if "e" ∈ F then (lookupD siguientes r.1).map (fun t => (r.1, t)) else [])
      match celdasAsignadas NT T primeros siguientes resto with
      | none => none
      | some cs => some (estas ++ cs)

/-- Pointwise extension of maps: same key spine, every value extended by a
(possibly empty) suffix.  Every pass of the fixpoint loops relates its input
and output this way, which is what makes the change test and the
termination measure work. -/
inductive ExtM : Mapa → Mapa → Prop
  | nil : ExtM [] []
  | cons (k : String) (v s : List String) {t t' : Mapa} (h : ExtM t t') :
      ExtM ((k, v) :: t) ((k, v ++ s) :: t')

/-- Total size of a map: the termination measure of the fixpoint loops. -/
def muM (m : Mapa) : Nat := (m.map (fun p => p.2.length)).sum

/-- A map none of whose sets contains the epsilon marker; FOLLOW sets keep
this invariant. -/
def sinEps (m : Mapa) : Prop := ∀ p ∈ m, "e" ∉ p.2

/-- Well-formed working map of a fixpoint loop: key spine `NT`, values
duplicate-free and drawn from the universe `U`. -/
def BuenMapa (NT U : List String) (m : Mapa) : Prop :=
  m.map Prod.fst = NT ∧ ∀ p ∈ m, p.2.Nodup ∧ ∀ x ∈ p.2, x ∈ U

/-- The universe of the FOLLOW loop: the end marker, the terminals, and
every element of the FIRST map. -/
def universoSiguientes (T : List String) (primeros : Mapa) : List String :=
  "$" :: (T ++ (primeros.map (fun p => p.2)).flatten)

/-- Item universe of the closure loop of `cerrar_item`. -/
def itemsUniverso (reglas : List Regla) (it : Item) : List Item :=
  it :: reglas.map (fun r => ((r.1, r.2), 0))

-- Concrete grammars used by the claims.

/-- Scenario D grammar: `S → a S b` and `S → ε`. -/
def reglasD : List Regla := [("S", ['a', 'S', 'b']), ("S", [])]

/-- Alphabets of grammar D. -/
def simbD := identificar_simbolos reglasD

/-- FIRST map of grammar D (checked against the engine below). -/
def primD : Mapa := [("S", ["a", "e"])]

/-- FOLLOW map of grammar D (checked against the engine below). -/
def sigD : Mapa := [("S", ["$", "b"])]

/-- LL(1) table and conflict flag of grammar D. -/
def tablaConfD : Option (TablaLL × Bool) :=
  construir_tabla_ll1 simbD.1 simbD.2 primD sigD reglasD

/-- Grammar `S → A B c`, `A → a`, `B → ε`, on which the source's FOLLOW
engine departs from the section 4.3 fixpoint. -/
def reglas3 : List Regla := [("S", ['A', 'B', 'c']), ("A", ['a']), ("B", [])]

/-- Alphabets of the three-rule grammar. -/
def simb3 := identificar_simbolos reglas3

/-- FIRST map of the three-rule grammar. -/
def prim3 : Mapa := [("S", ["a"]), ("A", ["a"]), ("B", ["e"])]

/-- Grammar `S → A a | B b`, `A → c`, `B → c`: one LR(0) state holds the two
completed items `A → c·` and `B → c·`, whose FOLLOW sets `{a}` and `{b}` are
disjoint. -/
def reglas5 : List Regla :=
  [("S", ['A', 'a']), ("S", ['B', 'b']), ("A", ['c']), ("B", ['c'])]

/-- Alphabets of the disjoint-lookahead grammar. -/
def simb5 := identificar_simbolos reglas5

/-- FIRST map of the disjoint-lookahead grammar. -/
def prim5 : Mapa := [("S", ["c"]), ("A", ["c"]), ("B", ["c"])]

/-- FOLLOW map of the disjoint-lookahead grammar. -/
def sig5 : Mapa := [("S", ["$"]), ("A", ["a"]), ("B", ["b"])]

/-- A grammar whose production list repeats the same production twice, as
the loader produces from the single line `S -> a a`. -/
def reglasDup : List Regla := [("S", ['a']), ("S", ['a'])]

/-- Alphabets of the duplicated-production grammar. -/
def simbDup := identificar_simbolos reglasDup

/-- A grammar with a stray `e` character inside a right-hand side, as loaded
from the line `S -> ea`: the character is classified neither terminal nor
non-terminal. -/
def reglasE : List Regla := [("S", ['e', 'a'])]

/-- Alphabets of the stray-epsilon grammar. -/
def simbE := identificar_simbolos reglasE

-- Basic facts about the Python-set and dictionary primitives.

theorem mem_agregarElem_self (s : List String) (x : String) : x ∈ agregarElem s x := by
  unfold agregarElem; split
  · assumption
  · simp

theorem mem_agregarElem_of_mem {s : List String} {y : String} (x : String) (h : y ∈ s) :
    y ∈ agregarElem s x := by
  unfold agregarElem; split
  · exact h
  · exact List.mem_append_left _ h

theorem mem_agregarElem {s : List String} {x y : String} (h : y ∈ agregarElem s x) :
    y = x ∨ y ∈ s := by
  unfold agregarElem at h; split at h
  · exact Or.inr h
  · rcases List.mem_append.mp h with h | h
    · exact Or.inr h
    · exact Or.inl (by simpa using h)

theorem agregarElem_ext (s : List String) (x : String) : ∃ r, agregarElem s x = s ++ r := by
  unfold agregarElem; split
  · exact ⟨[], by simp⟩
  · exact ⟨[x], rfl⟩

theorem agregarElem_nodup {s : List String} (x : String) (h : s.Nodup) :
    (agregarElem s x).Nodup := by
  unfold agregarElem; split
  · exact h
  · rename_i hx
    simp [List.nodup_append, h, hx]

theorem mem_unionElems_left {s xs : List String} {y : String} (h : y ∈ s) :
    y ∈ unionElems s xs := by
  induction xs generalizing s with
  | nil => exact h
  | cons a t ih => exact ih (mem_agregarElem_of_mem a h)

theorem mem_unionElems {s xs : List String} {y : String} (h : y ∈ unionElems s xs) :
    y ∈ s ∨ y ∈ xs := by
  induction xs generalizing s with
  | nil => exact Or.inl h
  | cons a t ih =>
    rcases ih h with h1 | h1
    · rcases mem_agregarElem h1 with h2 | h2
      · exact Or.inr (by simp [h2])
      · exact Or.inl h2
    · exact Or.inr (List.mem_cons_of_mem a h1)

theorem unionElems_ext (s xs : List String) : ∃ r, unionElems s xs = s ++ r := by
  induction xs generalizing s with
  | nil => exact ⟨[], by simp [unionElems]⟩
  | cons a t ih =>
    rcases agregarElem_ext s a with ⟨r1, h1⟩
    rcases ih (agregarElem s a) with ⟨r2, h2⟩
    exact ⟨r1 ++ r2, by simp [unionElems] at *; rw [h2, h1, List.append_assoc]⟩

theorem unionElems_nodup {s : List String} (xs : List String) (h : s.Nodup) :
    (unionElems s xs).Nodup := by
  induction xs generalizing s with
  | nil => exact h
  | cons a t ih => exact ih (agregarElem_nodup a h)

theorem lookupD_mem_values {m : Mapa} {k x : String} (h : x ∈ lookupD m k) :
    ∃ p ∈ m, x ∈ p.2 := by
  induction m with
  | nil => simp [lookupD] at h
  | cons p t ih =>
    unfold lookupD at h
    split at h
    · exact ⟨p, by simp, h⟩
    · rcases ih h with ⟨q, hq, hx⟩
      exact ⟨q, List.mem_cons_of_mem p hq, hx⟩

theorem mem_lookupD_actualizaV_mono {k' x : String} (k : String)
    (f : List String → List String) (hf : ∀ v, x ∈ v → x ∈ f v) (m : Mapa)
    (h : x ∈ lookupD m k') : x ∈ lookupD (actualizaV m k f) k' := by
  induction m with
  | nil => simp [lookupD] at h
  | cons p t ih =>
    rcases p with ⟨a, v⟩
    by_cases hak' : a = k'
    · subst hak'
      by_cases hak : a = k
      · subst hak
        simp [lookupD, actualizaV] at h ⊢
        exact hf v h
      · simp [lookupD, actualizaV, hak] at h ⊢
        exact h
    · by_cases hak : a = k
      · subst hak
        simp [lookupD, actualizaV, hak'] at h ⊢
        exact h
      · simp [lookupD, actualizaV, hak, hak'] at h ⊢
        exact ih h

-- Facts about pointwise map extension and the termination measure.

theorem extM_refl (m : Mapa) : ExtM m m := by
  induction m with
  | nil => exact ExtM.nil
  | cons p t ih =>
    have h := ExtM.cons p.1 p.2 [] ih
    simpa using h

theorem extM_trans {a b c : Mapa} (h1 : ExtM a b) (h2 : ExtM b c) : ExtM a c := by
  induction h1 generalizing c with
  | nil => exact h2
  | cons k v s t ih =>
    cases h2 with
    | cons _ _ s2 h2t =>
      have h := ExtM.cons k v (s ++ s2) (ih h2t)
      rwa [← List.append_assoc] at h

theorem extM_actualizaV (m : Mapa) (k : String) (f : List String → List String)
    (hf : ∀ v, ∃ r, f v = v ++ r) : ExtM m (actualizaV m k f) := by
  induction m with
  | nil => exact ExtM.nil
  | cons p t ih =>
    rcases p with ⟨a, v⟩
    unfold actualizaV
    split
    · rcases hf v with ⟨r, hr⟩
      rw [hr]
      exact ExtM.cons a v r (extM_refl t)
    · have h := ExtM.cons a v [] ih
      simpa using h

theorem extM_lookupD {m m' : Mapa} (h : ExtM m m') (k : String) :
    ∃ r, lookupD m' k = lookupD m k ++ r := by
  induction h with
  | nil => exact ⟨[], rfl⟩
  | cons k2 v s h ih =>
    unfold lookupD
    split
    · exact ⟨s, rfl⟩
    · exact ih

theorem extM_map_fst {m m' : Mapa} (h : ExtM m m') : m.map Prod.fst = m'.map Prod.fst := by
  induction h with
  | nil => rfl
  | cons k v s h ih => simpa using ih

theorem extM_mu_le {m m' : Mapa} (h : ExtM m m') : muM m ≤ muM m' := by
  induction h with
  | nil => exact Nat.le_refl _
  | cons k v s h ih =>
    simp [muM] at ih ⊢
    omega

theorem extM_ne_mu_lt {m m' : Mapa} (h : ExtM m m') (hne : m ≠ m') : muM m < muM m' := by
  induction h with
  | nil => exact absurd rfl hne
  | @cons k v s t t' h ih =>
    by_cases hs : s = []
    · subst hs
      have ht : t ≠ t' := by intro he; apply hne; simp [he]
      have hlt := ih ht
      simp [muM] at hlt ⊢
      omega
    · have h1 : 1 ≤ s.length := List.length_pos.mpr hs
      have h2 := extM_mu_le h
      simp [muM] at h2 ⊢
      omega

-- Generic facts about the fuel-bounded change loops.

theorem foldl_inv {α β : Type} (f : α → β → α) (P : α → Prop)
    (h : ∀ a b, P a → P (f a b)) : ∀ (l : List β) (a : α), P a → P (l.foldl f a) := by
  intro l
  induction l with
  | nil => intro a ha; exact ha
  | cons b t ih => intro a ha; exact ih (f a b) (h a b ha)

theorem foldl_inv_mem {α β : Type} (f : α → β → α) (P : α → Prop) :
    ∀ (l : List β), (∀ a b, b ∈ l → P a → P (f a b)) → ∀ a, P a → P (l.foldl f a) := by
  intro l
  induction l with
  | nil => intro _ a ha; exact ha
  | cons b t ih =>
    intro h a ha
    exact ih (fun x y hy hx => h x y (List.mem_cons_of_mem b hy) hx) (f a b)
      (h a b (by simp) ha)

theorem mientrasCambieT_inv {α : Type} [DecidableEq α] (paso : α → α) (P : α → Prop)
    (hp : ∀ a, P a → P (paso a)) :
    ∀ (fuel : Nat) (a : α), P a → P (mientrasCambieT paso fuel a) := by
  intro fuel
  induction fuel with
  | zero => intro a ha; exact ha
  | succ f ih =>
    intro a ha
    simp only [mientrasCambieT]
    split
    · exact hp a ha
    · exact ih (paso a) (hp a ha)

theorem mientrasCambieT_estable {α : Type} [DecidableEq α] (paso : α → α) (P : α → Prop)
    (μ : α → Nat) (B : Nat)
    (hP : ∀ a, P a → P (paso a))
    (hg : ∀ a, P a → paso a = a ∨ μ a < μ (paso a))
    (hB : ∀ a, P a → μ a ≤ B) :
    ∀ (fuel : Nat) (a : α), P a → B + 1 ≤ fuel + μ a →
      paso (mientrasCambieT paso fuel a) = mientrasCambieT paso fuel a := by
  intro fuel
  induction fuel with
  | zero =>
    intro a ha hf
    exact absurd (hB a ha) (by omega)
  | succ f ih =>
    intro a ha hf
    simp only [mientrasCambieT]
    split
    · rename_i he; rw [he]; exact he
    · rename_i he
      have hlt : μ a < μ (paso a) := by
        rcases hg a ha with h | h
        · exact absurd h he
        · exact h
      exact ih (paso a) (hP a ha) (by omega)

theorem mientrasCambie_estable {α : Type} [DecidableEq α] (paso : α → Option α) (P : α → Prop)
    (μ : α → Nat) (B : Nat)
    (hs : ∀ a, P a → ∃ b, paso a = some b ∧ P b ∧ (b = a ∨ μ a < μ b))
    (hB : ∀ a, P a → μ a ≤ B) :
    ∀ (fuel : Nat) (a : α), P a → B + 1 ≤ fuel + μ a →
      ∃ r, mientrasCambie paso fuel a = some r ∧ paso r = some r ∧ P r := by
  intro fuel
  induction fuel with
  | zero =>
    intro a ha hf
    exact absurd (hB a ha) (by omega)
  | succ f ih =>
    intro a ha hf
    rcases hs a ha with ⟨b, hb, hPb, hgr⟩
    simp only [mientrasCambie, hb]
    by_cases he : b = a
    · subst he
      simp only [if_pos rfl]
      exact ⟨b, rfl, hb, ha⟩
    · simp only [if_neg he]
      have hlt : μ a < μ b := by
        rcases hgr with h | h
        · exact absurd h he
        · exact h
      exact ih b hPb (by omega)

theorem nodup_sub_length_le {α : Type} [DecidableEq α] (l U : List α) (hn : l.Nodup)
    (hU : ∀ x ∈ l, x ∈ U) : l.length ≤ U.length := by
  have h1 : l.toFinset.card = l.length := List.toFinset_card_of_nodup hn
  have h2 : l.toFinset ⊆ U.toFinset := by
    intro x hx
    rw [List.mem_toFinset] at hx ⊢
    exact hU x hx
  have h3 := Finset.card_le_card h2
  have h4 : U.toFinset.card ≤ U.length := U.toFinset_card_le
  omega

theorem muM_le_of_buena {NT U : List String} {m : Mapa} (h : BuenMapa NT U m) :
    muM m ≤ NT.length * U.length := by
  rcases h with ⟨hsp, hv⟩
  have hlen : m.length = NT.length := by
    have := congrArg List.length hsp
    simpa using this
  rw [← hlen]
  clear hsp hlen
  induction m with
  | nil => simp [muM]
  | cons p t ih =>
    have hp := hv p (by simp)
    have h1 : p.2.length ≤ U.length := nodup_sub_length_le p.2 U hp.1 hp.2
    have h2 : muM t ≤ t.length * U.length := ih (fun q hq => hv q (List.mem_cons_of_mem p hq))
    simp only [muM, List.map_cons, List.sum_cons] at *
    calc p.2.length + (t.map (fun q => q.2.length)).sum
        ≤ U.length + t.length * U.length := Nat.add_le_add h1 h2
      _ = (t.length + 1) * U.length := by ring
      _ = (p :: t).length * U.length := by simp

-- Facts about the symbol analyzer.

theorem toString_eq_e {c : Char} (h : c.toString = "e") : c = 'e' := by
  have h2 : c.toString.data = "e".data := by rw [h]
  simpa [Char.toString, String.singleton] using h2

theorem clasificaChar_mono_nt {acc : List String × List String} {x : String} (c : Char)
    (h : x ∈ acc.1) : x ∈ (clasificaChar acc c).1 := by
  unfold clasificaChar
  split
  · exact mem_agregarElem_of_mem _ h
  · split
    · exact h
    · exact h

theorem clasificaChar_mono_t {acc : List String × List String} {x : String} (c : Char)
    (h : x ∈ acc.2) : x ∈ (clasificaChar acc c).2 := by
  unfold clasificaChar
  split
  · exact h
  · split
    · exact mem_agregarElem_of_mem _ h
    · exact h

theorem clasificaRegla_mono_nt {acc : List String × List String} {x : String} (r : Regla)
    (h : x ∈ acc.1) : x ∈ (clasificaRegla acc r).1 := by
  unfold clasificaRegla
  exact foldl_inv clasificaChar (fun a => x ∈ a.1) (fun a c ha => clasificaChar_mono_nt c ha)
    r.2 _ (mem_agregarElem_of_mem _ h)

theorem clasificaRegla_mono_t {acc : List String × List String} {x : String} (r : Regla)
    (h : x ∈ acc.2) : x ∈ (clasificaRegla acc r).2 := by
  unfold clasificaRegla
  exact foldl_inv clasificaChar (fun a => x ∈ a.2) (fun a c ha => clasificaChar_mono_t c ha)
    r.2 _ h

theorem identificar_lhs_mem {reglas : List Regla} {r : Regla} (h : r ∈ reglas) :
    r.1 ∈ (identificar_simbolos reglas).1 := by
  unfold identificar_simbolos
  suffices hs : ∀ acc : List String × List String, r.1 ∈ (reglas.foldl clasificaRegla acc).1 by
    exact hs ([], [])
  induction reglas with
  | nil => cases h
  | cons q t ih =>
    intro acc
    rcases List.mem_cons.mp h with h1 | h1
    · subst h1
      simp only [List.foldl_cons]
      exact foldl_inv clasificaRegla (fun a => r.1 ∈ a.1)
        (fun a b ha => clasificaRegla_mono_nt b ha) t _
        (by unfold clasificaRegla
            exact foldl_inv clasificaChar (fun a => r.1 ∈ a.1)
              (fun a c ha => clasificaChar_mono_nt c ha) r.2 _ (mem_agregarElem_self _ _))
    · simp only [List.foldl_cons]
      exact ih h1 _

theorem clasificaChar_sin_e {acc : List String × List String} (c : Char)
    (h : "e" ∉ acc.2) : "e" ∉ (clasificaChar acc c).2 := by
  unfold clasificaChar
  split
  · exact h
  · split
    · rename_i hne
      intro hx
      rcases mem_agregarElem hx with h1 | h1
      · exact hne (toString_eq_e h1.symm)
      · exact h h1
    · exact h

theorem identificar_sin_e (reglas : List Regla) : "e" ∉ (identificar_simbolos reglas).2 := by
  unfold identificar_simbolos
  intro hx
  rcases mem_agregarElem hx with h1 | h1
  · exact absurd h1 (by decide)
  · refine absurd h1 ?_
    suffices hs : ∀ acc : List String × List String, "e" ∉ acc.2 →
        "e" ∉ (reglas.foldl clasificaRegla acc).2 by
      exact hs ([], []) (by simp)
    intro acc hacc
    refine foldl_inv clasificaRegla (fun a => "e" ∉ a.2) ?_ reglas acc hacc
    intro a b ha
    unfold clasificaRegla
    exact foldl_inv clasificaChar (fun x => "e" ∉ x.2)
      (fun x c hx => clasificaChar_sin_e c hx) b.2 _ ha

theorem clasifica_en_regla {reglas : List Regla} {r : Regla} {c : Char}
    (hr : r ∈ reglas) (hc : c ∈ r.2) :
    (c.isUpper = true → c.toString ∈ (identificar_simbolos reglas).1) ∧
    (c.isUpper = false → c ≠ 'e' → c.toString ∈ (identificar_simbolos reglas).2) := by
  unfold identificar_simbolos
  have paso : ∀ acc : List String × List String,
      (c.isUpper = true → c.toString ∈ (clasificaRegla acc r).1) ∧
      (c.isUpper = false → c ≠ 'e' → c.toString ∈ (clasificaRegla acc r).2) := by
    intro acc
    unfold clasificaRegla
    have dentro : ∀ resto : List Char, c ∈ resto → ∀ a : List String × List String,
        (c.isUpper = true → c.toString ∈ (resto.foldl clasificaChar a).1) ∧
        (c.isUpper = false → c ≠ 'e' → c.toString ∈ (resto.foldl clasificaChar a).2) := by
      intro resto
      induction resto with
      | nil => intro h; cases h
      | cons d t ih =>
        intro hmem a
        rcases List.mem_cons.mp hmem with h1 | h1
        · subst h1
          constructor
          · intro hu
            refine foldl_inv clasificaChar (fun x => c.toString ∈ x.1)
              (fun x e hx => clasificaChar_mono_nt e hx) t _ ?_
            unfold clasificaChar
            rw [if_pos hu]
            exact mem_agregarElem_self _ _
          · intro hu hne
            refine foldl_inv clasificaChar (fun x => c.toString ∈ x.2)
              (fun x e hx => clasificaChar_mono_t e hx) t _ ?_
            unfold clasificaChar
            rw [if_neg (by simp [hu]), if_pos hne]
            exact mem_agregarElem_self _ _
        · exact ih h1 _
    exact dentro r.2 hc _
  have final : ∀ acc : List String × List String,
      (c.isUpper = true → c.toString ∈ (reglas.foldl clasificaRegla acc).1) ∧
      (c.isUpper = false → c ≠ 'e' → c.toString ∈ (reglas.foldl clasificaRegla acc).2) := by
    induction reglas with
    | nil => cases hr
    | cons q t ih =>
      rcases List.mem_cons.mp hr with h1 | h1
      · subst h1
        intro acc
        simp only [List.foldl_cons]
        constructor
        · intro hu
          exact foldl_inv clasificaRegla (fun a => c.toString ∈ a.1)
            (fun a b ha => clasificaRegla_mono_nt b ha) t _ ((paso acc).1 hu)
        · intro hu hne
          exact foldl_inv clasificaRegla (fun a => c.toString ∈ a.2)
            (fun a b ha => clasificaRegla_mono_t b ha) t _ ((paso acc).2 hu hne)
      · intro acc
        simp only [List.foldl_cons]
        exact ih h1 _
  constructor
  · intro hu
    exact (final ([], [])).1 hu
  · intro hu hne
    exact mem_agregarElem_of_mem _ ((final ([], [])).2 hu hne)

-- Invariants of the FOLLOW engine.

theorem sinEps_lookupD {m : Mapa} (h : sinEps m) (k : String) : "e" ∉ lookupD m k := by
  intro hx
  rcases lookupD_mem_values hx with ⟨p, hp, hxp⟩
  exact h p hp hxp

theorem sinEps_actualizaV {k : String} {f : List String → List String}
    (hf : ∀ v, "e" ∉ v → "e" ∉ f v) :
    ∀ m : Mapa, sinEps m → sinEps (actualizaV m k f) := by
  intro m
  induction m with
  | nil => intro h; exact h
  | cons p t ih =>
    intro h
    rcases p with ⟨a, v⟩
    have hv : "e" ∉ v := h (a, v) (by simp)
    have ht : sinEps t := fun q hq => h q (List.mem_cons_of_mem _ hq)
    unfold actualizaV
    split
    · intro q hq
      rcases List.mem_cons.mp hq with h1 | h1
      · subst h1; exact hf v hv
      · exact ht q h1
    · intro q hq
      rcases List.mem_cons.mp hq with h1 | h1
      · subst h1; exact hv
      · exact ih ht q h1

theorem sinEps_agregarElem {v : List String} {x : String} (hx : x ≠ "e") (h : "e" ∉ v) :
    "e" ∉ agregarElem v x :=
  fun hm => (mem_agregarElem hm).elim (fun h1 => hx h1.symm) h

theorem sinEps_unionFiltrada {v : List String} (xs : List String) (h : "e" ∉ v) :
    "e" ∉ unionElems v (xs.filter (fun x => x ≠ "e")) := by
  intro hm
  rcases mem_unionElems hm with h1 | h1
  · exact h h1
  · rcases List.mem_filter.mp h1 with ⟨_, hd⟩
    simp at hd

theorem agregar_follow_sinEps {m : Mapa} {vis : List String} {s a : String}
    (h : sinEps m) : sinEps (agregar_follow m vis s a).1 := by
  by_cases hv : s ∈ vis
  · simp only [agregar_follow, if_pos hv]
    exact h
  · simp only [agregar_follow, if_neg hv]
    refine sinEps_actualizaV ?_ m h
    intro v hv2 hx
    rcases mem_unionElems hx with h1 | h1
    · exact hv2 h1
    · exact sinEps_lookupD h a h1

theorem agregar_follow_extM (m : Mapa) (vis : List String) (s a : String) :
    ExtM m (agregar_follow m vis s a).1 := by
  by_cases hv : s ∈ vis
  · simp only [agregar_follow, if_pos hv]
    exact extM_refl m
  · simp only [agregar_follow, if_neg hv]
    exact extM_actualizaV m s _ (fun v => unionElems_ext v _)

theorem siguientesRec_extM (NT T : List String) (primeros : Mapa) (a : String) :
    ∀ (deriv : List Char) (st : Mapa × List String),
      ExtM st.1 (siguientesRec NT T primeros a deriv st).1 := by
  intro deriv
  induction deriv with
  | nil => intro st; exact extM_refl _
  | cons c resto ih =>
    intro st
    simp only [siguientesRec]
    refine extM_trans ?_ (ih _)
    rcases st with ⟨m, vis⟩
    dsimp only
    repeat' split
    all_goals
      first
        | exact extM_refl _
        | exact agregar_follow_extM _ _ _ _
        | exact extM_actualizaV _ _ _ (fun v => agregarElem_ext v _)
        | exact extM_actualizaV _ _ _ (fun v => unionElems_ext v _)
        | exact extM_trans (extM_actualizaV _ _ _ (fun v => unionElems_ext v _))
            (agregar_follow_extM _ _ _ _)

theorem siguientesRec_sinEps {NT T : List String} {primeros : Mapa} {a : String}
    (hT : "e" ∉ T) :
    ∀ (deriv : List Char) (st : Mapa × List String), sinEps st.1 →
      sinEps (siguientesRec NT T primeros a deriv st).1 := by
  intro deriv
  induction deriv with
  | nil => intro st h; exact h
  | cons c resto ih =>
    intro st h
    simp only [siguientesRec]
    apply ih
    rcases st with ⟨m, vis⟩
    dsimp only at h ⊢
    repeat' split
    all_goals
      first
        | exact h
        | exact agregar_follow_sinEps h
        | exact agregar_follow_sinEps
            (sinEps_actualizaV (fun v hv => sinEps_unionFiltrada _ hv) _ h)
        | exact sinEps_actualizaV (fun v hv => sinEps_unionFiltrada _ hv) _ h
        | (rename_i hmem
           exact sinEps_actualizaV
             (fun v hv => sinEps_agregarElem (fun he => hT (he ▸ hmem)) hv) _ h)

theorem siguientesPaso_extM (NT T : List String) (primeros : Mapa) (reglas : List Regla)
    (m : Mapa) : ExtM m (siguientesPaso NT T primeros reglas m) := by
  unfold siguientesPaso
  suffices hs : ∀ (l : List Regla) (st : Mapa × List String), ExtM m st.1 →
      ExtM m (l.foldl (fun st r => siguientesRec NT T primeros r.1 r.2 st) st).1 by
    exact hs reglas (m, []) (extM_refl m)
  intro l
  induction l with
  | nil => intro st h; exact h
  | cons r t ih =>
    intro st h
    simp only [List.foldl_cons]
    exact ih _ (extM_trans h (siguientesRec_extM NT T primeros r.1 r.2 st))

theorem siguientesPaso_sinEps {NT T : List String} {primeros : Mapa} {reglas : List Regla}
    (hT : "e" ∉ T) (m : Mapa) (h : sinEps m) :
    sinEps (siguientesPaso NT T primeros reglas m) := by
  unfold siguientesPaso
  exact foldl_inv _ (fun st : Mapa × List String => sinEps st.1)
    (fun st r hst => siguientesRec_sinEps hT r.2 st hst) reglas (m, []) h

theorem lookupD_map_nil (NT : List String) (k : String) :
    lookupD (NT.map (fun nt => (nt, []))) k = [] := by
  induction NT with
  | nil => rfl
  | cons a t ih =>
    simp only [List.map_cons]
    unfold lookupD
    split
    · rfl
    · exact ih

theorem lookupD_actualizaV_self {k : String} (f : List String → List String) :
    ∀ m : Mapa, k ∈ m.map Prod.fst → lookupD (actualizaV m k f) k = f (lookupD m k) := by
  intro m
  induction m with
  | nil => intro hk; simp at hk
  | cons p t ih =>
    intro hk
    rcases p with ⟨a, v⟩
    by_cases hak : a = k
    · subst hak
      simp [actualizaV, lookupD]
    · simp only [actualizaV, lookupD, if_neg hak]
      simp only [List.map_cons, List.mem_cons] at hk
      rcases hk with h1 | h1
      · exact absurd h1.symm hak
      · exact ih h1

theorem mapa_inicial_espina (NT : List String) :
    (NT.map (fun nt => (nt, ([] : List String)))).map Prod.fst = NT := by
  induction NT with
  | nil => rfl
  | cons a t ih => simp [ih]

theorem inicialSiguientes_dolar {NT : List String} {s0 : String} (h : s0 ∈ NT) :
    "$" ∈ lookupD (inicialSiguientes NT s0) s0 := by
  unfold inicialSiguientes
  rw [if_pos h]
  rw [lookupD_actualizaV_self _ _ (by rw [mapa_inicial_espina]; exact h)]
  rw [lookupD_map_nil]
  exact mem_agregarElem_self [] "$"

theorem inicialSiguientes_sinEps (NT : List String) (s0 : String) :
    sinEps (inicialSiguientes NT s0) := by
  unfold inicialSiguientes
  have base : sinEps (NT.map fun nt => (nt, [])) := by
    intro p hp
    rcases List.mem_map.mp hp with ⟨nt, _, he⟩
    subst he
    simp
  split
  · exact sinEps_actualizaV (fun v hv => sinEps_agregarElem (by decide) hv) _ base
  · exact base

/-- C8: after the FOLLOW computation, the end marker belongs to the start
symbol's FOLLOW set and no FOLLOW set contains the epsilon marker.  The
start symbol is the left-hand side of the first production; the FIRST map
may be arbitrary. -/
theorem c8_invariante_de_siguientes (reglas : List Regla) (primeros : Mapa)
    (h : reglas ≠ []) :
    "$" ∈ lookupD
      (calcular_conjuntos_siguientes (identificar_simbolos reglas).1
        (identificar_simbolos reglas).2 primeros reglas (reglas.head h).1)
      (reglas.head h).1 ∧
    ∀ k, "e" ∉ lookupD
      (calcular_conjuntos_siguientes (identificar_simbolos reglas).1
        (identificar_simbolos reglas).2 primeros reglas (reglas.head h).1) k := by
  have hs0 : (reglas.head h).1 ∈ (identificar_simbolos reglas).1 :=
    identificar_lhs_mem (List.head_mem h)
  have hT : "e" ∉ (identificar_simbolos reglas).2 := identificar_sin_e reglas
  have hP := mientrasCambieT_inv
    (siguientesPaso (identificar_simbolos reglas).1 (identificar_simbolos reglas).2
      primeros reglas)
    (fun m => "$" ∈ lookupD m (reglas.head h).1 ∧ sinEps m)
    (fun m hm => by
      constructor
      · rcases extM_lookupD
          (siguientesPaso_extM (identificar_simbolos reglas).1
            (identificar_simbolos reglas).2 primeros reglas m) (reglas.head h).1
          with ⟨r, hr⟩
        rw [hr]
        exact List.mem_append_left _ hm.1
      · exact siguientesPaso_sinEps hT m hm.2)
    (combustibleSiguientes (identificar_simbolos reglas).1
      (identificar_simbolos reglas).2 primeros)
    (inicialSiguientes (identificar_simbolos reglas).1 (reglas.head h).1)
    ⟨inicialSiguientes_dolar hs0,
     inicialSiguientes_sinEps (identificar_simbolos reglas).1 (reglas.head h).1⟩
  exact ⟨hP.1, fun k => sinEps_lookupD hP.2 k⟩

/-- Witness for C8 at the scenario-D grammar. -/
theorem c8_invariante_de_siguientes_testigo :
    reglasD ≠ [] ∧
    ("$" ∈ lookupD
      (calcular_conjuntos_siguientes (identificar_simbolos reglasD).1
        (identificar_simbolos reglasD).2 primD reglasD (reglasD.head (by decide)).1)
      (reglasD.head (by decide)).1 ∧
    ∀ k, "e" ∉ lookupD
      (calcular_conjuntos_siguientes (identificar_simbolos reglasD).1
        (identificar_simbolos reglasD).2 primD reglasD (reglasD.head (by decide)).1) k) :=
  ⟨by decide, c8_invariante_de_siguientes reglasD primD (by decide)⟩

-- Well-formedness of the FOLLOW working map, for the termination bound.

theorem actualizaV_espina (m : Mapa) (k : String) (f : List String → List String) :
    (actualizaV m k f).map Prod.fst = m.map Prod.fst := by
  induction m with
  | nil => rfl
  | cons p t ih =>
    rcases p with ⟨a, v⟩
    unfold actualizaV
    split
    · simp
    · simpa using ih

theorem buena_actualizaV {NT U : List String} {m : Mapa} {k : String}
    {f : List String → List String}
    (hf : ∀ v, v.Nodup → (f v).Nodup)
    (hg : ∀ v, (∀ x ∈ v, x ∈ U) → ∀ x ∈ f v, x ∈ U)
    (h : BuenMapa NT U m) : BuenMapa NT U (actualizaV m k f) := by
  constructor
  · rw [actualizaV_espina]
    exact h.1
  · have hv := h.2
    clear h
    induction m with
    | nil => intro p hp; cases hp
    | cons p t ih =>
      rcases p with ⟨a, v⟩
      have hav := hv (a, v) (by simp)
      have hvt : ∀ q ∈ t, q.2.Nodup ∧ ∀ x ∈ q.2, x ∈ U :=
        fun q hq => hv q (List.mem_cons_of_mem _ hq)
      unfold actualizaV
      split
      · intro q hq
        rcases List.mem_cons.mp hq with h1 | h1
        · subst h1
          exact ⟨hf v hav.1, hg v hav.2⟩
        · exact hvt q h1
      · intro q hq
        rcases List.mem_cons.mp hq with h1 | h1
        · subst h1; exact hav
        · exact ih hvt q h1

theorem sub_agregarElem {U v : List String} {x : String} (hx : x ∈ U)
    (hv : ∀ y ∈ v, y ∈ U) : ∀ y ∈ agregarElem v x, y ∈ U := by
  intro y hy
  rcases mem_agregarElem hy with h1 | h1
  · exact h1 ▸ hx
  · exact hv y h1

theorem sub_unionElems {U v xs : List String} (hxs : ∀ y ∈ xs, y ∈ U)
    (hv : ∀ y ∈ v, y ∈ U) : ∀ y ∈ unionElems v xs, y ∈ U := by
  intro y hy
  rcases mem_unionElems hy with h1 | h1
  · exact hv y h1
  · exact hxs y h1

theorem lookupD_sub {U : List String} {m : Mapa} {k : String}
    (h : ∀ p ∈ m, ∀ x ∈ p.2, x ∈ U) : ∀ x ∈ lookupD m k, x ∈ U := by
  intro x hx
  rcases lookupD_mem_values hx with ⟨p, hp, hxp⟩
  exact h p hp x hxp

theorem mem_universoSiguientes_t {T : List String} {primeros : Mapa} {x : String}
    (h : x ∈ T) : x ∈ universoSiguientes T primeros := by
  unfold universoSiguientes
  exact List.mem_cons_of_mem _ (List.mem_append_left _ h)

theorem mem_universoSiguientes_prim {T : List String} {primeros : Mapa} {x k : String}
    (h : x ∈ lookupD primeros k) : x ∈ universoSiguientes T primeros := by
  unfold universoSiguientes
  refine List.mem_cons_of_mem _ (List.mem_append_right _ ?_)
  rcases lookupD_mem_values h with ⟨p, hp, hxp⟩
  rw [List.mem_flatten]
  exact ⟨p.2, List.mem_map_of_mem _ hp, hxp⟩

theorem agregar_follow_buena {NT T : List String} {primeros : Mapa} {m : Mapa}
    {vis : List String} {s a : String}
    (h : BuenMapa NT (universoSiguientes T primeros) m) :
    BuenMapa NT (universoSiguientes T primeros) (agregar_follow m vis s a).1 := by
  by_cases hv : s ∈ vis
  · simp only [agregar_follow, if_pos hv]
    exact h
  · simp only [agregar_follow, if_neg hv]
    exact buena_actualizaV (fun v hn => unionElems_nodup _ hn)
      (fun v hs => sub_unionElems (lookupD_sub (fun p hp => (h.2 p hp).2)) hs) h

theorem siguientesRec_buena {NT T : List String} {primeros : Mapa} {a : String} :
    ∀ (deriv : List Char) (st : Mapa × List String),
      BuenMapa NT (universoSiguientes T primeros) st.1 →
      BuenMapa NT (universoSiguientes T primeros) (siguientesRec NT T primeros a deriv st).1 := by
  intro deriv
  induction deriv with
  | nil => intro st h; exact h
  | cons c resto ih =>
    intro st h
    simp only [siguientesRec]
    apply ih
    rcases st with ⟨m, vis⟩
    dsimp only at h ⊢
    repeat' split
    all_goals
      first
        | exact h
        | exact agregar_follow_buena h
        | exact agregar_follow_buena
            (buena_actualizaV (fun v hn => unionElems_nodup _ hn)
              (fun v hs => sub_unionElems
                (fun y hy => mem_universoSiguientes_prim
                  (List.mem_of_mem_filter hy)) hs) h)
        | exact buena_actualizaV (fun v hn => unionElems_nodup _ hn)
            (fun v hs => sub_unionElems
              (fun y hy => mem_universoSiguientes_prim
                (List.mem_of_mem_filter hy)) hs) h
        | (rename_i hmem
           exact buena_actualizaV (fun v hn => agregarElem_nodup _ hn)
             (fun v hs => sub_agregarElem (mem_universoSiguientes_t hmem) hs) h)

theorem siguientesPaso_buena {NT T : List String} {primeros : Mapa} {reglas : List Regla}
    (m : Mapa) (h : BuenMapa NT (universoSiguientes T primeros) m) :
    BuenMapa NT (universoSiguientes T primeros) (siguientesPaso NT T primeros reglas m) := by
  unfold siguientesPaso
  exact foldl_inv _ (fun st : Mapa × List String =>
      BuenMapa NT (universoSiguientes T primeros) st.1)
    (fun st r hst => siguientesRec_buena r.2 st hst) reglas (m, []) h

-- Stabilisation of the FOLLOW loop within its fuel.

theorem universoSiguientes_length (T : List String) (primeros : Mapa) :
    (universoSiguientes T primeros).length
      = 1 + T.length + (primeros.map (fun p => p.2.length)).sum := by
  simp [universoSiguientes, List.length_flatten, List.map_map, Function.comp_def]
  omega

theorem mapa_inicial_buena (NT U : List String) :
    BuenMapa NT U (NT.map (fun nt => (nt, []))) := by
  constructor
  · exact mapa_inicial_espina NT
  · intro p hp
    rcases List.mem_map.mp hp with ⟨nt, _, he⟩
    subst he
    exact ⟨List.nodup_nil, fun x hx => by cases hx⟩

theorem inicialSiguientes_buena (NT T : List String) (primeros : Mapa) (s0 : String) :
    BuenMapa NT (universoSiguientes T primeros) (inicialSiguientes NT s0) := by
  unfold inicialSiguientes
  split
  · exact buena_actualizaV (fun v hn => agregarElem_nodup _ hn)
      (fun v hs => sub_agregarElem (by simp [universoSiguientes]) hs)
      (mapa_inicial_buena NT _)
  · exact mapa_inicial_buena NT _

theorem siguientes_estables (NT T : List String) (primeros : Mapa) (reglas : List Regla)
    (s0 : String) :
    siguientesPaso NT T primeros reglas
        (calcular_conjuntos_siguientes NT T primeros reglas s0)
      = calcular_conjuntos_siguientes NT T primeros reglas s0 := by
  unfold calcular_conjuntos_siguientes
  refine mientrasCambieT_estable (siguientesPaso NT T primeros reglas)
    (BuenMapa NT (universoSiguientes T primeros)) muM
    (NT.length * (universoSiguientes T primeros).length)
    (fun m hm => siguientesPaso_buena m hm)
    (fun m hm => ?_)
    (fun m hm => muM_le_of_buena hm)
    (combustibleSiguientes NT T primeros)
    (inicialSiguientes NT s0)
    (inicialSiguientes_buena NT T primeros s0) ?_
  · by_cases he : siguientesPaso NT T primeros reglas m = m
    · exact Or.inl he
    · exact Or.inr (extM_ne_mu_lt (siguientesPaso_extM NT T primeros reglas m)
        (fun hh => he hh.symm))
  · have hl := universoSiguientes_length T primeros
    unfold combustibleSiguientes
    rw [hl]
    omega

-- The FIRST walk succeeds and grows the map when every character is
-- classified, which holds exactly when no right-hand side contains a
-- stray 'e'.

theorem primerosWalk_ok (NT T : List String) (a : String) :
    ∀ (deriv : List Char) (m : Mapa),
      (∀ c ∈ deriv, c.toString ∈ T ∨ c.toString ∈ NT) →
      BuenMapa NT ("e" :: T) m →
      ∃ r, primerosWalk NT T a deriv m = some r ∧ ExtM m r.1 ∧
        BuenMapa NT ("e" :: T) r.1 := by
  intro deriv
  induction deriv with
  | nil =>
    intro m _ hb
    exact ⟨(m, true), rfl, extM_refl m, hb⟩
  | cons c resto ih =>
    intro m hc hb
    by_cases h1 : c.toString ∈ T
    · exact ⟨(actualizaV m a (fun v => agregarElem v c.toString), false),
        by simp [primerosWalk, h1],
        extM_actualizaV _ _ _ (fun v => agregarElem_ext v _),
        buena_actualizaV (fun v hn => agregarElem_nodup _ hn)
          (fun v hs => sub_agregarElem (List.mem_cons_of_mem _ h1) hs) hb⟩
    · have h2 : c.toString ∈ NT := (hc c (by simp)).resolve_left h1
      have hm1e : ExtM m (actualizaV m a (fun v =>
          unionElems v ((lookupD m c.toString).filter (fun x => x ≠ "e")))) :=
        extM_actualizaV _ _ _ (fun v => unionElems_ext v _)
      have hm1b : BuenMapa NT ("e" :: T) (actualizaV m a (fun v =>
          unionElems v ((lookupD m c.toString).filter (fun x => x ≠ "e")))) :=
        buena_actualizaV (fun v hn => unionElems_nodup _ hn)
          (fun v hs => sub_unionElems
            (fun y hy => lookupD_sub (fun p hp => (hb.2 p hp).2) y
              (List.mem_of_mem_filter hy)) hs) hb
      by_cases h3 : "e" ∈ lookupD (actualizaV m a (fun v =>
          unionElems v ((lookupD m c.toString).filter (fun x => x ≠ "e")))) c.toString
      · rcases ih _ (fun d hd => hc d (List.mem_cons_of_mem c hd)) hm1b with ⟨r, hr, hre, hrb⟩
        refine ⟨r, ?_, extM_trans hm1e hre, hrb⟩
        simp only [primerosWalk]
        rw [if_neg h1, if_pos h2, if_pos h3]
        exact hr
      · refine ⟨(actualizaV m a (fun v =>
            unionElems v ((lookupD m c.toString).filter (fun x => x ≠ "e"))), false),
            ?_, hm1e, hm1b⟩
        simp only [primerosWalk]
        rw [if_neg h1, if_pos h2, if_neg h3]

theorem primerosRegla_ok {NT T : List String} {r : Regla} {m : Mapa}
    (hc : ∀ c ∈ r.2, c.toString ∈ T ∨ c.toString ∈ NT)
    (hb : BuenMapa NT ("e" :: T) m) :
    ∃ m2, primerosRegla NT T r m = some m2 ∧ ExtM m m2 ∧ BuenMapa NT ("e" :: T) m2 := by
  cases hr2 : r.2 with
  | nil =>
    refine ⟨actualizaV m r.1 (fun v => agregarElem v "e"), ?_,
      extM_actualizaV _ _ _ (fun v => agregarElem_ext v _),
      buena_actualizaV (fun v hn => agregarElem_nodup _ hn)
        (fun v hs => sub_agregarElem (by simp) hs) hb⟩
    simp [primerosRegla, hr2]
  | cons c resto =>
    rcases primerosWalk_ok NT T r.1 (c :: resto) m (hr2 ▸ hc) hb with ⟨⟨m1, todos⟩, hw, he, hb1⟩
    cases todos
    · exact ⟨m1, by simp [primerosRegla, hr2, hw], he, hb1⟩
    · refine ⟨actualizaV m1 r.1 (fun v => agregarElem v "e"),
        by simp [primerosRegla, hr2, hw],
        extM_trans he (extM_actualizaV _ _ _ (fun v => agregarElem_ext v _)),
        buena_actualizaV (fun v hn => agregarElem_nodup _ hn)
          (fun v hs => sub_agregarElem (by simp) hs) hb1⟩

theorem primerosPaso_ok {NT T : List String} :
    ∀ (reglas : List Regla) (m : Mapa),
      (∀ r ∈ reglas, ∀ c ∈ r.2, c.toString ∈ T ∨ c.toString ∈ NT) →
      BuenMapa NT ("e" :: T) m →
      ∃ m2, primerosPaso NT T reglas m = some m2 ∧ ExtM m m2 ∧
        BuenMapa NT ("e" :: T) m2 := by
  intro reglas
  induction reglas with
  | nil => intro m _ hb; exact ⟨m, rfl, extM_refl m, hb⟩
  | cons r t ih =>
    intro m hc hb
    rcases primerosRegla_ok (hc r (by simp)) hb with ⟨m1, h1, e1, b1⟩
    rcases ih m1 (fun q hq => hc q (List.mem_cons_of_mem r hq)) b1 with ⟨m2, h2, e2, b2⟩
    refine ⟨m2, ?_, extM_trans e1 e2, b2⟩
    simp only [primerosPaso] at h2 ⊢
    rw [List.foldlM_cons, h1]
    exact h2

theorem primeros_estables (NT T : List String) (reglas : List Regla)
    (hc : ∀ r ∈ reglas, ∀ c ∈ r.2, c.toString ∈ T ∨ c.toString ∈ NT) :
    ∃ m, calcular_conjuntos_primeros NT T reglas = some m ∧
      primerosPaso NT T reglas m = some m := by
  unfold calcular_conjuntos_primeros
  have hfuel : NT.length * ("e" :: T).length + 1
      ≤ combustiblePrimeros NT T + muM (NT.map (fun nt => (nt, []))) := by
    unfold combustiblePrimeros
    simp only [List.length_cons]
    omega
  rcases mientrasCambie_estable (primerosPaso NT T reglas) (BuenMapa NT ("e" :: T)) muM
    (NT.length * ("e" :: T).length)
    (fun m hm => by
      rcases primerosPaso_ok reglas m hc hm with ⟨m2, h2, e2, b2⟩
      refine ⟨m2, h2, b2, ?_⟩
      by_cases he : m2 = m
      · exact Or.inl he
      · exact Or.inr (extM_ne_mu_lt e2 (fun hh => he hh.symm)))
    (fun m hm => muM_le_of_buena hm)
    (combustiblePrimeros NT T) (NT.map (fun nt => (nt, [])))
    (mapa_inicial_buena NT _) hfuel with ⟨r, h1, h2, _⟩
  exact ⟨r, h1, h2⟩

-- Stabilisation of the closure loop of cerrar_item.

theorem mem_agregarItem {s : List Item} {x y : Item} (h : y ∈ agregarItem s x) :
    y = x ∨ y ∈ s := by
  unfold agregarItem at h
  split at h
  · exact Or.inr h
  · rcases List.mem_append.mp h with h | h
    · exact Or.inr h
    · exact Or.inl (by simpa using h)

theorem agregarItem_ext (s : List Item) (x : Item) : ∃ r, agregarItem s x = s ++ r := by
  unfold agregarItem
  split
  · exact ⟨[], by simp⟩
  · exact ⟨[x], rfl⟩

theorem agregarItem_nodup {s : List Item} (x : Item) (h : s.Nodup) :
    (agregarItem s x).Nodup := by
  unfold agregarItem
  split
  · exact h
  · rename_i hx
    simp [List.nodup_append, h, hx]

theorem cerrarPaso_ext (reglas : List Regla) (l : List Item) :
    ∃ s, cerrarPaso reglas l = l ++ s := by
  unfold cerrarPaso
  refine foldl_inv _ (fun acc : List Item => ∃ s, acc = l ++ s) ?_ l l ⟨[], by simp⟩
  intro acc it hacc
  dsimp only
  split
  · split
    · refine foldl_inv _ (fun a : List Item => ∃ s, a = l ++ s) ?_ reglas acc hacc
      intro a r ha
      rcases ha with ⟨s, hs⟩
      split
      · rcases agregarItem_ext a ((r.1, r.2), 0) with ⟨s2, h2⟩
        exact ⟨s ++ s2, by rw [h2, hs, List.append_assoc]⟩
      · exact ⟨s, hs⟩
    · exact hacc
  · exact hacc

theorem cerrarPaso_nodup (reglas : List Regla) (l : List Item) (h : l.Nodup) :
    (cerrarPaso reglas l).Nodup := by
  unfold cerrarPaso
  refine foldl_inv _ (fun a : List Item => a.Nodup) ?_ l l h
  intro a it ha
  dsimp only
  split
  · split
    · refine foldl_inv _ (fun a : List Item => a.Nodup) ?_ reglas a ha
      intro a2 r h2
      split
      · exact agregarItem_nodup _ h2
      · exact h2
    · exact ha
  · exact ha

theorem cerrarPaso_sub (reglas : List Regla) (it0 : Item) (l : List Item)
    (h : ∀ x ∈ l, x ∈ itemsUniverso reglas it0) :
    ∀ x ∈ cerrarPaso reglas l, x ∈ itemsUniverso reglas it0 := by
  unfold cerrarPaso
  refine foldl_inv _ (fun a : List Item => ∀ x ∈ a, x ∈ itemsUniverso reglas it0) ?_ l l h
  intro a it ha
  dsimp only
  split
  · split
    · refine foldl_inv_mem _ (fun a : List Item => ∀ x ∈ a, x ∈ itemsUniverso reglas it0)
        reglas ?_ a ha
      intro a2 r hr h2 x hx
      split at hx
      · rcases mem_agregarItem hx with h3 | h3
        · subst h3
          exact List.mem_cons_of_mem _ (List.mem_map.mpr ⟨r, hr, rfl⟩)
        · exact h2 x h3
      · exact h2 x hx
    · exact ha
  · exact ha

theorem append_ne_length_lt {α : Type} {l s : List α} (h : l ++ s ≠ l) :
    l.length < (l ++ s).length := by
  cases s with
  | nil => simp at h
  | cons a t =>
    simp [List.length_append]

theorem cierre_estable (reglas : List Regla) (it : Item) :
    cerrarPaso reglas (cerrar_item reglas it) = cerrar_item reglas it := by
  unfold cerrar_item
  refine mientrasCambieT_estable (cerrarPaso reglas)
    (fun l => l.Nodup ∧ ∀ x ∈ l, x ∈ itemsUniverso reglas it) List.length
    (itemsUniverso reglas it).length
    (fun l hl => ⟨cerrarPaso_nodup reglas l hl.1, cerrarPaso_sub reglas it l hl.2⟩)
    (fun l hl => ?_)
    (fun l hl => nodup_sub_length_le l _ hl.1 hl.2)
    (reglas.length + 2) [it] ⟨by simp, ?_⟩ ?_
  · rcases cerrarPaso_ext reglas l with ⟨s, hs⟩
    by_cases he : cerrarPaso reglas l = l
    · exact Or.inl he
    · right
      rw [hs] at he ⊢
      exact append_ne_length_lt he
  · intro x hx
    simp only [List.mem_singleton] at hx
    subst hx
    exact List.mem_cons_self _ _
  · simp [itemsUniverso]

/-- C9, amended: on grammars whose right-hand sides contain no stray 'e'
character (the data model of the specification), the FIRST iteration returns
and its result is a fixpoint of the FIRST pass, the FOLLOW iteration's
result is a fixpoint of the FOLLOW pass, and the closure of any LR(0) item
is a fixpoint of the closure pass.  (The canonical-collection enumeration is
excluded: it raises an exception through `ir_a` before reaching any
fixpoint, and on a grammar with a stray 'e' the FIRST iteration does not
terminate at all — see the counterexample below.) -/
theorem c9_fixpoints_alcanzados (reglas : List Regla) (primeros : Mapa) (s0 : String)
    (hwf : ∀ r ∈ reglas, ∀ c ∈ r.2, c ≠ 'e') :
    (∃ m, calcular_conjuntos_primeros (identificar_simbolos reglas).1
        (identificar_simbolos reglas).2 reglas = some m ∧
      primerosPaso (identificar_simbolos reglas).1 (identificar_simbolos reglas).2 reglas m
        = some m) ∧
    siguientesPaso (identificar_simbolos reglas).1 (identificar_simbolos reglas).2 primeros
        reglas
        (calcular_conjuntos_siguientes (identificar_simbolos reglas).1
          (identificar_simbolos reglas).2 primeros reglas s0)
      = calcular_conjuntos_siguientes (identificar_simbolos reglas).1
          (identificar_simbolos reglas).2 primeros reglas s0 ∧
    ∀ it : Item, cerrarPaso reglas (cerrar_item reglas it) = cerrar_item reglas it := by
  refine ⟨?_, siguientes_estables _ _ primeros reglas s0, fun it => cierre_estable reglas it⟩
  refine primeros_estables _ _ reglas ?_
  intro r hr c hc
  rcases clasifica_en_regla hr hc with ⟨h1, h2⟩
  by_cases hu : c.isUpper
  · exact Or.inr (h1 hu)
  · exact Or.inl (h2 (by simpa using hu) (hwf r hr c hc))

/-- Witness for the amended C9 at the scenario-D grammar. -/
theorem c9_fixpoints_alcanzados_testigo :
    (∀ r ∈ reglasD, ∀ c ∈ r.2, c ≠ 'e') ∧
    ((∃ m, calcular_conjuntos_primeros (identificar_simbolos reglasD).1
        (identificar_simbolos reglasD).2 reglasD = some m ∧
      primerosPaso (identificar_simbolos reglasD).1 (identificar_simbolos reglasD).2 reglasD m
        = some m) ∧
    siguientesPaso (identificar_simbolos reglasD).1 (identificar_simbolos reglasD).2 primD
        reglasD
        (calcular_conjuntos_siguientes (identificar_simbolos reglasD).1
          (identificar_simbolos reglasD).2 primD reglasD "S")
      = calcular_conjuntos_siguientes (identificar_simbolos reglasD).1
          (identificar_simbolos reglasD).2 primD reglasD "S" ∧
    ∀ it : Item, cerrarPaso reglasD (cerrar_item reglasD it) = cerrar_item reglasD it) :=
  ⟨by decide, c9_fixpoints_alcanzados reglasD primD "S" (by decide)⟩

-- Characterisation of the LL(1) builder's conflict flag.

theorem nodup_concat_iff {α : Type} [DecidableEq α] (l : List α) (a : α) :
    (l ++ [a]).Nodup ↔ l.Nodup ∧ a ∉ l := by
  simp [List.nodup_append]

theorem asignarCeldas_inv (a : String) (deriv : List Char) :
    ∀ (ts : List String) (st : TablaLL × Bool) (done : List (String × String)),
      (∀ c : String × String, (st.1 c.1 c.2).isSome ↔ c ∈ done) →
      (st.2 = true ↔ ¬ done.Nodup) →
      (∀ c : String × String, ((asignarCeldas a deriv ts st).1 c.1 c.2).isSome ↔
          c ∈ done ++ ts.map (fun t => (a, t))) ∧
      ((asignarCeldas a deriv ts st).2 = true ↔
          ¬ (done ++ ts.map (fun t => (a, t))).Nodup) := by
  intro ts
  induction ts with
  | nil =>
    intro st done h1 h2
    constructor
    · intro c
      simpa [asignarCeldas] using h1 c
    · simpa [asignarCeldas] using h2
  | cons t ts ih =>
    intro st done h1 h2
    have h1n : ∀ c : String × String,
        (((fun x y => if x = a ∧ y = t then some deriv else st.1 x y) : TablaLL) c.1 c.2).isSome
          ↔ c ∈ done ++ [(a, t)] := by
      intro c
      by_cases hc : c.1 = a ∧ c.2 = t
      · have hceq : c = (a, t) := Prod.ext hc.1 hc.2
        simp [hc, hceq]
      · have hcne : c ≠ (a, t) := by
          intro he
          subst he
          exact hc ⟨rfl, rfl⟩
        simp only [if_neg hc]
        rw [h1 c]
        simp [hcne]
    have h2n : (st.2 || (st.1 a t).isSome) = true ↔ ¬ (done ++ [(a, t)]).Nodup := by
      rw [nodup_concat_iff]
      rw [Bool.or_eq_true, h2]
      rw [show (st.1 a t).isSome ↔ (a, t) ∈ done from h1 (a, t)]
      tauto
    have hstep := ih ((fun x y => if x = a ∧ y = t then some deriv else st.1 x y),
        st.2 || (st.1 a t).isSome) (done ++ [(a, t)]) h1n h2n
    constructor
    · intro c
      have := hstep.1 c
      simpa [asignarCeldas, List.foldl_cons, List.append_assoc] using this
    · have := hstep.2
      simpa [asignarCeldas, List.foldl_cons, List.append_assoc] using this

theorem construirFold_inv (NT T : List String) (primeros siguientes : Mapa) :
    ∀ (reglas : List Regla) (st : TablaLL × Bool) (done : List (String × String))
      (res : TablaLL × Bool) (cs : List (String × String)),
      (∀ c : String × String, (st.1 c.1 c.2).isSome ↔ c ∈ done) →
      (st.2 = true ↔ ¬ done.Nodup) →
      reglas.foldlM (fun st r =>
        match primerosDerivacion NT T primeros r.2 with
        | none => none
        | some F =>
          let st1 := asignarCeldas r.1 r.2 (F.filter (fun x => x ≠ "e")) st
          some (if "e" ∈ F then asignarCeldas r.1 r.2 (lookupD siguientes r.1) st1 else st1))
        st = some res →
      celdasAsignadas NT T primeros siguientes reglas = some cs →
      (res.2 = true ↔ ¬ (done ++ cs).Nodup) := by
  intro reglas
  induction reglas with
  | nil =>
    intro st done res cs h1 h2 hf hc
    simp only [List.foldlM_nil] at hf
    simp only [celdasAsignadas, Option.some.injEq] at hc
    have hst : st = res := by simpa using hf
    subst hst
    subst hc
    simpa using h2
  | cons r rs ih =>
    intro st done res cs h1 h2 hf hc
    rw [List.foldlM_cons] at hf
    cases hF : primerosDerivacion NT T primeros r.2 with
    | none =>
      rw [hF] at hf
      simp at hf
    | some F =>
      rw [hF] at hf
      simp only [Option.some_bind] at hf
      simp only [celdasAsignadas, hF] at hc
      cases hcs : celdasAsignadas NT T primeros siguientes rs with
      | none =>
        rw [hcs] at hc
        simp at hc
      | some cs2 =>
        rw [hcs] at hc
        simp only [Option.some.injEq] at hc
        have paso1 := asignarCeldas_inv r.1 r.2 (F.filter (fun x => x ≠ "e")) st done h1 h2
        by_cases he : "e" ∈ F
        · have paso2 := asignarCeldas_inv r.1 r.2 (lookupD siguientes r.1)
            (asignarCeldas r.1 r.2 (F.filter (fun x => x ≠ "e")) st)
            (done ++ (F.filter (fun x => x ≠ "e")).map (fun t => (r.1, t)))
            paso1.1 paso1.2
          rw [if_pos he] at hf
          have hres := ih _ _ res cs2 paso2.1 paso2.2 hf hcs
          rw [← hc]
          rw [hres]
          simp [he, List.append_assoc]
        · rw [if_neg he] at hf
          have hres := ih _ _ res cs2 paso1.1 paso1.2 hf hcs
          rw [← hc]
          rw [hres]
          simp [he, List.append_assoc]

/-- C4, amended: the LL(1) table builder records a conflict exactly when
some cell is assigned more than once — counting, for each production
`A → α`, one assignment per terminal of `FIRST(α) \ {e}` and, when
`e ∈ FIRST(α)`, one per element of `FOLLOW(A)` — regardless of whether the
assignments carry the same production.  In particular, repopulating a cell
with the same production IS recorded as a conflict (the source checks only
`is not None`, not whether the stored production differs). -/
theorem c4_conflicto_sii_celda_repetida (NT T : List String) (primeros siguientes : Mapa)
    (reglas : List Regla) (conf : Bool) (cs : List (String × String))
    (h : (construir_tabla_ll1 NT T primeros siguientes reglas).map (fun p => p.2) = some conf)
    (hc : celdasAsignadas NT T primeros siguientes reglas = some cs) :
    conf = true ↔ ¬ cs.Nodup := by
  cases hres : construir_tabla_ll1 NT T primeros siguientes reglas with
  | none =>
    rw [hres] at h
    simp at h
  | some p =>
    rw [hres] at h
    have hconf : p.2 = conf := by simpa using h
    subst hconf
    have := construirFold_inv NT T primeros siguientes reglas (tablaVacia, false) [] p cs
      (by intro c; simp [tablaVacia]) (by simp) (by exact hres) hc
    simpa using this

/-- Witness for the amended C4 at the duplicated-production grammar: the
conflict flag is raised and the assignment sequence indeed targets the cell
`(S, a)` twice. -/
theorem c4_conflicto_sii_celda_repetida_testigo :
    ((construir_tabla_ll1 simbDup.1 simbDup.2 [("S", ["a"])] [("S", ["$"])] reglasDup).map
        (fun p => p.2) = some true ∧
      celdasAsignadas simbDup.1 simbDup.2 [("S", ["a"])] [("S", ["$"])] reglasDup
        = some [("S", "a"), ("S", "a")]) ∧
    (true = true ↔ ¬ ([("S", "a"), ("S", "a")] : List (String × String)).Nodup) :=
  ⟨⟨by decide, by decide⟩,
   c4_conflicto_sii_celda_repetida simbDup.1 simbDup.2 [("S", ["a"])] [("S", ["$"])]
     reglasDup true [("S", "a"), ("S", "a")] (by decide) (by decide)⟩

-- Claim theorems on concrete grammars.

/-- C1: the claim fails on the code.  The recognizer's stack is the Python
list `[simbolo_inicial, '$']`, and the source always reads the top as the
LAST element (`pila[-1]`): the first examined top is the end marker `"$"`,
not the start symbol.  Consequently the first comparison already mismatches
any input not starting with '$', and grammar D's input `ab$` is rejected at
once. -/
theorem c1_tope_inicial_es_dolar :
    (pilaInicial "S").getLast? = some "$" ∧ "$" ≠ "S" ∧
    (construir_tabla_ll1 simbD.1 simbD.2 primD sigD reglasD).map
      (fun p => analizar_ll1 simbD.2 p.1 "S" ['a', 'b', '$']) = some (some false) := by
  decide

/-- C2: for grammar D the table builder records no conflict — that half of
the claim holds — but the LL(1) recognizer rejects all six scenario inputs,
including `ε`, `ab`, `aabb`, `aaabbb` that the claim says it accepts: the
initial stack has '$' on top, and the accept branch (line 242) is dead code
because '$' is a member of the terminal set and is consumed by the terminal
branch first. -/
theorem c2_gramatica_D_rechaza_todo :
    calcular_conjuntos_primeros simbD.1 simbD.2 reglasD = some primD ∧
    calcular_conjuntos_siguientes simbD.1 simbD.2 primD reglasD "S" = sigD ∧
    tablaConfD.map (fun p => p.2) = some false ∧
    tablaConfD.map (fun p =>
      [analizar_ll1 simbD.2 p.1 "S" ['$'],
       analizar_ll1 simbD.2 p.1 "S" ['a', 'b', '$'],
       analizar_ll1 simbD.2 p.1 "S" ['a', 'a', 'b', 'b', '$'],
       analizar_ll1 simbD.2 p.1 "S" ['a', 'a', 'a', 'b', 'b', 'b', '$'],
       analizar_ll1 simbD.2 p.1 "S" ['a', 'b', 'b', '$'],
       analizar_ll1 simbD.2 p.1 "S" ['a', 'a', 'b', '$']])
      = some [some false, some false, some false, some false, some false, some false] := by
  decide

/-- C3: the claim fails on the code.  On the grammar `S → A B c`, `A → a`,
`B → ε`, the engine produces `FOLLOW(A) = {$}` — it looks only at the single
next symbol `B` and, finding it nullable, pours in `FOLLOW(S)` — while the
section 4.3 fixpoint demands `FOLLOW(A) = FIRST(Bc) \ {ε} = {c}` (and not
`$`, since `ε ∉ FIRST(Bc)`).  The last conjunct checks that the
specification-side value is a genuine fixpoint of the section 4.3 rules. -/
theorem c3_siguientes_difiere_de_la_espec :
    calcular_conjuntos_primeros simb3.1 simb3.2 reglas3 = some prim3 ∧
    lookupD (calcular_conjuntos_siguientes simb3.1 simb3.2 prim3 reglas3 "S") "A" = ["$"] ∧
    lookupD (siguientesSegunEspec simb3.1 simb3.2 prim3 reglas3 "S") "A" = ["c"] ∧
    (reglas3.foldl (fun acc r => siguientesEspecRec simb3.1 simb3.2 prim3 r.1 r.2 acc)
        (siguientesSegunEspec simb3.1 simb3.2 prim3 reglas3 "S")
      = siguientesSegunEspec simb3.1 simb3.2 prim3 reglas3 "S") := by
  decide

/-- C5: the claim fails on the code.  On the grammar `S → Aa | Bb`, `A → c`,
`B → c` — whose only two-reduction state holds `A → c·` and `B → c·` with
the disjoint FOLLOW sets `{a}` and `{b}` — `es_slr1` never reports anything:
its state enumeration calls `ir_a`, which hands a whole item-set to
`cerrar_item` in place of a single item, and the destructuring of it raises
an uncaught `TypeError`/`ValueError` (modelled by `none`).  Even ignoring
the crash, its reduce-reduce test (line 361) checks only
`len(reducciones) > 1`, never lookahead intersection. -/
theorem c5_es_slr1_lanza_excepcion :
    calcular_conjuntos_primeros simb5.1 simb5.2 reglas5 = some prim5 ∧
    calcular_conjuntos_siguientes simb5.1 simb5.2 prim5 reglas5 "S" = sig5 ∧
    lookupD sig5 "A" = ["a"] ∧ lookupD sig5 "B" = ["b"] ∧
    es_slr1 reglas5 simb5.2 sig5 "S" = none := by
  decide

/-- C6: the claim fails on the code.  On grammar D both `es_slr1` and
`construir_tabla_slr1` raise the same uncaught exception inside `ir_a`
before any conflict detection or any ACTION-cell assignment happens, so
`es_slr1` never returns a verdict at all, and in particular never returns
true even though the aborted construction has attempted no overwrite. -/
theorem c6_predicado_y_tabla_lanzan :
    es_slr1 reglasD simbD.2 sigD "S" = none ∧
    construir_tabla_slr1 reglasD simbD.1 simbD.2 sigD "S" = none :=
  ⟨by decide, rfl⟩

/-- C7, counterexample: the single line `S -> a b` — whose right-hand side
is a whitespace-separated sequence of the one-character tokens `a` and `b` —
is loaded as TWO productions `S → a` and `S → b`, not as one production with
right-hand side `a b`. -/
theorem c7_una_linea_varias_producciones :
    leer_gramatica (some [['1'], ['S', ' ', '-', '>', ' ', 'a', ' ', 'b']])
      = Carga.ok [("S", ['a']), ("S", ['b'])] [] (some "S") ∧
    ([("S", (['a'] : List Char)), ("S", ['b'])].length ≠ 1) := by
  decide

/-- C7, amended: each well-formed grammar line contributes one production
per whitespace-separated token of its right-hand part — the token's own
characters form that production's right-hand side, the token `e` yields an
empty one, and the left-hand part becomes every production's left-hand side
(and the start symbol if it is the first line).  Alternatives on one line
therefore come from its several tokens. -/
theorem c7_producciones_por_token (archivo : List Linea) (i resta : Nat)
    (acc : List Regla) (s0 : Option String) (p0 p1 : Linea)
    (h : (separaFlecha (recortar (lineaN archivo (i + 1))) []).map recortar = [p0, p1]) :
    leerReglasLoop archivo i (resta + 1) acc s0 =
      leerReglasLoop archivo (i + 1) resta
        (acc ++ (separaEspacios p1 []).map
          (fun d => ((String.mk p0 : String), if d = ['e'] then [] else d)))
        (if i = 0 then some (String.mk p0) else s0) := by
  have hfold : ∀ (l : List Linea) (a : List Regla),
      l.foldl (fun a d => a ++ [((String.mk p0 : String), if d = ['e'] then [] else d)]) a
        = a ++ l.map (fun d => ((String.mk p0 : String), if d = ['e'] then [] else d)) := by
    intro l
    induction l with
    | nil => intro a; simp
    | cons d t ih =>
      intro a
      simp only [List.foldl_cons, List.map_cons, ih]
      simp
  simp only [leerReglasLoop]
  rw [h]
  dsimp only
  rw [hfold]

/-- Witness for the amended C7 at the file `1` / `S -> a b`. -/
theorem c7_producciones_por_token_testigo :
    ((separaFlecha (recortar (lineaN [['1'], ['S', ' ', '-', '>', ' ', 'a', ' ', 'b']] 1)) []).map
        recortar = [['S'], ['a', ' ', 'b']]) ∧
    (leerReglasLoop [['1'], ['S', ' ', '-', '>', ' ', 'a', ' ', 'b']] 0 1 [] none =
      leerReglasLoop [['1'], ['S', ' ', '-', '>', ' ', 'a', ' ', 'b']] 1 0
        ([] ++ (separaEspacios ['a', ' ', 'b'] []).map
          (fun d => ((String.mk ['S'] : String), if d = ['e'] then [] else d)))
        (if (0 : Nat) = 0 then some (String.mk ['S']) else none)) :=
  ⟨by decide,
   c7_producciones_por_token [['1'], ['S', ' ', '-', '>', ' ', 'a', ' ', 'b']] 0 0 [] none
     ['S'] ['a', ' ', 'b'] (by decide)⟩

/-- C9, counterexample: on the grammar loaded from the line `S -> ea` the
right-hand side contains the character 'e', which `identificar_simbolos`
classifies as neither terminal nor non-terminal; the FIRST walk then never
advances its index and the FIRST fixpoint loop of the source runs forever
(`none` in the model). -/
theorem c9_primeros_diverge_con_e :
    calcular_conjuntos_primeros simbE.1 simbE.2 reglasE = none := by
  decide

/-- C10: the claim fails on the code.  On a missing grammar file — and
likewise on a first line that is not an integer — the source prints an error
and terminates through the bare `exit()` builtin, i.e. `SystemExit(None)`,
whose process exit status is 0, not non-zero. -/
theorem c10_salida_cero_en_errores :
    leer_gramatica none = Carga.exitCode 0 ∧
    leer_gramatica (some [['x']]) = Carga.exitCode 0 := by
  decide

/-- C4, counterexample: on the grammar whose production list is
`[S → a, S → a]` (exactly what the loader produces from the single line
`S -> a a`), the builder records a conflict although the cell `(S, a)` is
only ever assigned the same production `a` — no two productions with
different right-hand sides exist at all.  This refutes the claim's clause
that repopulating a cell with the same production is not recorded as a
conflict. -/
theorem c4_contraejemplo :
    (construir_tabla_ll1 simbDup.1 simbDup.2 [("S", ["a"])] [("S", ["$"])] reglasDup).map
        (fun p => (p.2, p.1 "S" "a")) = some (true, some ['a']) ∧
    (∀ r ∈ reglasDup, r.2 = ['a']) ∧
    calcular_conjuntos_primeros simbDup.1 simbDup.2 reglasDup = some [("S", ["a"])] ∧
    calcular_conjuntos_siguientes simbDup.1 simbDup.2 [("S", ["a"])] reglasDup "S"
      = [("S", ["$"])] := by
  decide
